import Mathlib

/-!
Shallow embedding, in Lean 4, of the three command-line utilities of this
repository (`csv_converter.py`, `find_unclosed_string.py`,
`json_validator.py`), together with theorems settling the specification
claims about them.

Conventions of the embedding:
* Python `str` values are Lean `String` / `List Char`.
* Python `float` is modelled exactly as a rational number together with the
  special values `inf`, `-inf` and `nan` (IEEE rounding is not modelled; the
  overflow threshold of `float(str)` is approximated at `DBL_MAX`).
* Python exceptions are modelled with `Except PyErr`; an uncaught exception
  is an `Except.error` value.
* Interactive `input()` calls consume successive elements of an explicit
  list of operator answers; an exhausted list models end-of-input.
-/

set_option maxRecDepth 100000

deriving instance DecidableEq for Except

/-- Python exception classes relevant to the converter. -/
inductive PyErr
  | valueError
  | typeError
  | overflowError
deriving DecidableEq

/-- Model of a Python `float` value: an exact rational for finite values,
plus the special values infinity, negative infinity and NaN. -/
inductive PyFloat
  | finite (q : Rat)
  | inf
  | ninf
  | nan
deriving DecidableEq

/-- A JSON-representable value as produced by the converter: the Python
values `None`, `str`, `int`, `float`, `bool`. -/
inductive JValue
  | null
  | str (s : String)
  | int (n : Int)
  | float (f : PyFloat)
  | bool (b : Bool)
deriving DecidableEq

/-- The closed set of data types of the converter
(`csv_converter.py`, `get_data_type`). -/
inductive DataType
  | string
  | integer
  | float
  | boolean
deriving DecidableEq

/-- Characters removed by Python `str.strip()` (ASCII whitespace). -/
def pyWsChar (c : Char) : Bool :=
  c == ' ' || c == '\t' || c == '\n' || c == '\r' || c == '\x0b' || c == '\x0c'

/-- Model of Python `str.strip()`: drop leading and trailing whitespace. -/
def pyStrip (s : String) : String :=
  .mk (((s.data.dropWhile pyWsChar).reverse.dropWhile pyWsChar).reverse)

/-- ASCII lower-casing of one character (Python `str.lower()` restricted to
ASCII, which is all the program's comparisons need). -/
def asciiLowerChar (c : Char) : Char :=
  if 'A' ≤ c ∧ c ≤ 'Z' then Char.ofNat (c.toNat + 32) else c

/-- Model of Python `str.lower()` (ASCII fragment). -/
def asciiLower (s : String) : String :=
  .mk (s.data.map asciiLowerChar)

/-- Value of a big-endian list of decimal digit characters. -/
def digitsToNat (l : List Char) : Nat :=
  l.foldl (fun a c => 10 * a + (c.toNat - 48)) 0

/-- Largest finite double (`DBL_MAX`), as an exact rational: the numeral
equals `(2 ^ 53 - 1) * 2 ^ 971`, written out so that kernel evaluation does
not have to unfold a power. -/
def maxFloat : Rat := 179769313486231570814527423731704356798070567525844996598917476803157260780028538760589558632766878171540458953514382464234321326889464182768467546703537516986049910576551282076245490090389328944075868508455133942304583236903222948165808559332123348274797826204144723168738177180919299881250404026184124858368

/-- Magnitudes beyond `DBL_MAX` overflow to an infinity when a string is
converted by Python `float()`. -/
def clampFloat (q : Rat) : PyFloat :=
  if maxFloat < q then .inf else if q < -maxFloat then .ninf else .finite q

/-- Exponent part of a floating-point literal: optional sign, then at least
one digit, consuming the whole remaining input. -/
def parseExpPart (l : List Char) : Option Int :=
  let p := match l with
    | '+' :: r => ((1 : Int), r)
    | '-' :: r => ((-1 : Int), r)
    | r => (1, r)
  let ds := p.2.takeWhile Char.isDigit
  let r2 := p.2.dropWhile Char.isDigit
  if ds.isEmpty || !r2.isEmpty then none
  else some (p.1 * digitsToNat ds)

/-- Exact rational value of a decimal literal with integer part `ip`,
fractional part `fp` and decimal exponent `e`. -/
def decValue (neg : Bool) (ip fp : List Char) (e : Int) : Rat :=
  let m : Int := (digitsToNat ip * 10 ^ fp.length + digitsToNat fp : Nat)
  let m : Int := if neg then -m else m
  if 0 ≤ e then mkRat (m * ((10 ^ e.toNat : Nat) : Int)) (10 ^ fp.length)
  else mkRat m (10 ^ fp.length * 10 ^ (-e).toNat)

/-- Model of Python `float(str)`: strips whitespace, accepts optional sign,
`inf` / `infinity` / `nan` case-insensitively, and decimal literals with
optional fractional part and exponent.  (Digit-group underscores are not
modelled.)  Returns `none` where Python raises `ValueError`. -/
def pyFloatOfString (s : String) : Option PyFloat :=
  let l := (asciiLower (pyStrip s)).data
  let p := match l with
    | '+' :: r => (false, r)
    | '-' :: r => (true, r)
    | r => (false, r)
  let neg := p.1
  let l1 := p.2
  if l1 = "inf".data || l1 = "infinity".data then
    some (if neg then .ninf else .inf)
  else if l1 = "nan".data then some .nan
  else
    let ip := l1.takeWhile Char.isDigit
    let r1 := l1.dropWhile Char.isDigit
    match r1 with
    | [] => if ip.isEmpty then none else some (clampFloat (decValue neg ip [] 0))
    | '.' :: r2 =>
      let fp := r2.takeWhile Char.isDigit
      let r3 := r2.dropWhile Char.isDigit
      if ip.isEmpty && fp.isEmpty then none
      else
        match r3 with
        | [] => some (clampFloat (decValue neg ip fp 0))
        | 'e' :: r4 => (parseExpPart r4).map (fun e => clampFloat (decValue neg ip fp e))
        | _ => none
    | 'e' :: r4 =>
      if ip.isEmpty then none
      else (parseExpPart r4).map (fun e => clampFloat (decValue neg ip [] e))
    | _ => none

/-- Truncation toward zero of a rational, as Python `int(float)` does for a
finite float. -/
def ratTrunc (q : Rat) : Int :=
  if 0 ≤ q.num then (q.num.toNat / q.den : Nat) else -(((-q.num).toNat / q.den : Nat))

/-- Model of Python `int(f)` on a float `f`: truncates finite values,
raises `OverflowError` on infinities and `ValueError` on NaN. -/
def pyIntOfFloat : PyFloat → Except PyErr Int
  | .finite q => .ok (ratTrunc q)
  | .inf => .error .overflowError
  | .ninf => .error .overflowError
  | .nan => .error .valueError

/-- The truthy spellings of the converter's boolean conversion
(`csv_converter.py` line 174). -/
def boolTruthy : List String := ["true", "1", "yes", "on", "t", "y"]

/-- Body of the `try:` block of `convert_value` (`csv_converter.py`
lines 166-174), acting on the already-stripped value `v`.  Exceptions
raised inside the block appear as `Except.error`. -/
def convert_value_body (v : String) (t : DataType) : Except PyErr JValue :=
  match t with
  | .string => .ok (.str v)
  | .integer =>
    match pyFloatOfString v with
    | none => .error .valueError
    | some f => (pyIntOfFloat f).map .int
  | .float =>
    match pyFloatOfString v with
    | none => .error .valueError
    | some f => .ok (.float f)
  | .boolean => .ok (.bool (boolTruthy.contains (asciiLower v)))

/-- Model of `UniversalCSVToJSONConverter.convert_value` (`csv_converter.py`
lines 159-177).  The result pairs the produced value with a flag recording
whether the warning `Could not convert ...` was printed.  Exceptions other
than `ValueError` / `TypeError` escape the function as `Except.error`. -/
def convert_value (value : String) (t : DataType) : Except PyErr (JValue × Bool) :=
  if value = "" || pyStrip value = "" then .ok (.null, false)
  else
    let v := pyStrip value
    match convert_value_body v t with
    | .ok r => .ok (r, false)
    | .error e =>
      if e = .valueError || e = .typeError then .ok (.null, true)
      else .error e

/-- One schema entry's payload: the source CSV column and the chosen data
type (the dict value stored in `db_schema`, `csv_converter.py` line 135). -/
structure MapInfo where
  csv_column : String
  data_type : DataType
deriving DecidableEq

/-- A schema is the ordered `db_schema` dict: insertion-ordered association
list from custom key to `MapInfo`. -/
abbrev Schema := List (String × MapInfo)

/-- A raw CSV row as handed to the conversion loop: an association list from
column name to raw text cell. -/
abbrev RawRow := List (String × String)

/-- Model of `row.get(csv_column, '')` (`csv_converter.py` line 196): the
cell under the column name, or the empty string when the column is absent
from the row. -/
def rowGet (row : RawRow) (col : String) : String :=
  match List.lookup col row with
  | some v => v
  | none => ""

/-- Effectful map over a list in the `Except` monad, stopping at the first
error — the shape of the Python `for` loops, where an uncaught exception
aborts the remaining iterations. -/
def mapE (f : α → Except PyErr β) : List α → Except PyErr (List β)
  | [] => .ok []
  | a :: l =>
    match f a with
    | .error e => .error e
    | .ok b =>
      match mapE f l with
      | .error e => .error e
      | .ok bs => .ok (b :: bs)

/-- Model of the inner loop of `convert_data` (`csv_converter.py`
lines 189-197): build `mapped_row` by converting, for each schema entry in
order, the row's raw value under the entry's source column. -/
def convert_row (schema : Schema) (row : RawRow) : Except PyErr (List (String × JValue)) :=
  mapE (fun e => (convert_value (rowGet row e.2.csv_column) e.2.data_type).map
    (fun r => (e.1, r.1))) schema

/-- Model of `UniversalCSVToJSONConverter.convert_data` (`csv_converter.py`
lines 179-201): one converted record per raw data row, in input order.  An
exception escaping `convert_value` aborts the whole conversion. -/
def convert_data (schema : Schema) (rows : List RawRow) :
    Except PyErr (List (List (String × JValue))) :=
  mapE (convert_row schema) rows

/-- Model of `get_user_input(prompt, default)` (`csv_converter.py`
lines 68-80) on one queued operator answer: the stripped answer, or the
default when the stripped answer is empty. -/
def userInput (answer : String) (dflt : Option String) : Option String :=
  if pyStrip answer = "" then dflt else some (pyStrip answer)

/-- Model of `UniversalCSVToJSONConverter.get_data_type` (`csv_converter.py`
lines 142-157).  Consumes operator answers from the front of `inputs`;
yields `some (dt?, rest)` where `dt? = none` means the key is skipped, or
`none` when the answers ran out (end of input).  The prompt carries the
default `"string"`, so `userInput` never yields an empty data type and the
source's `if not data_type` skip branch is unreachable. -/
def get_data_type : List String → Option (Option DataType × List String)
  | [] => none
  | i :: rest =>
    match userInput i (some "string") with
    | none => some (none, rest)
    | some d =>
      match asciiLower d with
      | "string" => some (some .string, rest)
      | "integer" => some (some .integer, rest)
      | "float" => some (some .float, rest)
      | "boolean" => some (some .boolean, rest)
      | _ =>
        match rest with
        | [] => none
        | r :: rest2 =>
          match userInput r (some "y") with
          | some a => if asciiLower a ≠ "y" then some (none, rest2) else get_data_type rest2
          | none => some (none, rest2)

/-- Model of the `while True:` loop body of `create_key_mapping` for one CSV
column (`csv_converter.py` lines 122-140): repeatedly prompt for a custom
key; an empty answer skips the column, a key already present in the schema
re-prompts without consuming the column, otherwise the data type is asked
for and an entry is produced unless the type prompt skipped the key. -/
def processColumn (schema : Schema) (header : String) :
    List String → Option (Option (String × MapInfo) × List String)
  | [] => none
  | i :: rest =>
    match userInput i none with
    | none => some (none, rest)
    | some key =>
      if (List.lookup key schema).isSome then
        processColumn schema header rest
      else
        match get_data_type rest with
        | none => none
        | some (none, rest2) => some (none, rest2)
        | some (some dt, rest2) => some (some (key, ⟨header, dt⟩), rest2)

/-- Model of `UniversalCSVToJSONConverter.create_key_mapping`
(`csv_converter.py` lines 109-140), generalized to start from an arbitrary
partial schema (the source starts from `{}`): fold `processColumn` over the
CSV headers, appending each produced entry. -/
def create_key_mapping (schema : Schema) :
    List String → List String → Option (Schema × List String)
  | [], inputs => some (schema, inputs)
  | h :: hs, inputs =>
    match processColumn schema h inputs with
    | none => none
    | some (none, rest) => create_key_mapping schema hs rest
    | some (some e, rest) => create_key_mapping (schema ++ [e]) hs rest

/-- Split a character list at `/` separators. -/
def splitSlash : List Char → List (List Char)
  | [] => [[]]
  | c :: r =>
    match splitSlash r with
    | g :: gs => if c = '/' then [] :: (g :: gs) else (c :: g) :: gs
    | [] => if c = '/' then [[], []] else [[c]]

/-- Join character lists with `/` separators. -/
def joinSlash : List (List Char) → List Char
  | [] => []
  | [g] => g
  | g :: gs => g ++ '/' :: joinSlash gs

/-- Model of `Path(p).with_suffix('.json')` on the default-output
computation (`csv_converter.py` line 99): replace the extension of the last
path component (the part after its last dot, if a dot occurs past the
component's first character) by `.json`. -/
def withSuffixJson (p : String) : String :=
  let parts := splitSlash p.data
  let name := parts.getLastD []
  let stem :=
    match name.reverse.dropWhile (· ≠ '.') with
    | _ :: rest => if rest.isEmpty then name else rest.reverse
    | [] => name
  .mk (joinSlash (parts.dropLast ++ [stem ++ ".json".data]))

/-- Terminal states of one `run()` of the converter (`csv_converter.py`
lines 260-306).  `interrupted` stands for an exhausted operator-input queue
or an uncaught exception: both reach the top-level handler and end the run. -/
inductive Outcome
  | cancelledPaths
  | emptySchema
  | declinedConfirm
  | declinedPreview
  | completed
  | interrupted
deriving DecidableEq

/-- Model of `get_file_paths` (`csv_converter.py` lines 82-101) over a list
`fs` of existing file paths: loop prompting for an input path (default
`data.csv`) until it exists or the operator declines the retry, then prompt
for the output path (default: input path with suffix `.json`). -/
def get_file_paths (fs : List String) : List String → Option (Option (String × String) × List String)
  | [] => none
  | i :: rest =>
    let ip := (userInput i (some "data.csv")).getD ""
    if ip ∈ fs then
      match rest with
      | [] => none
      | o :: rest2 =>
        let op := (userInput o (some (withSuffixJson ip))).getD ""
        some (some (ip, op), rest2)
    else
      match rest with
      | [] => none
      | r :: rest2 =>
        match userInput r (some "y") with
        | some a => if asciiLower a ≠ "y" then some (none, rest2) else get_file_paths fs rest2
        | none => some (none, rest2)

/-- Model of `UniversalCSVToJSONConverter.run` (`csv_converter.py`
lines 260-306), parameterized by the existing paths `fs`, the parsed content
of the input CSV file (`headers`, `rows`) and the queued operator answers.
The returned list holds the file writes the run performed (`save_json` is
the only write in the source); printing and the post-save "open the output
file" prompt have no filesystem effect and are not tracked. -/
def converterRun (fs : List String) (headers : List String) (rows : List RawRow)
    (inputs : List String) : Outcome × List (String × List (List (String × JValue))) :=
  match get_file_paths fs inputs with
  | none => (.interrupted, [])
  | some (none, _) => (.cancelledPaths, [])
  | some (some (_, op), rest) =>
    match create_key_mapping [] headers rest with
    | none => (.interrupted, [])
    | some (schema, rest2) =>
      if schema.isEmpty then (.emptySchema, [])
      else
        match rest2 with
        | [] => (.interrupted, [])
        | a :: rest3 =>
          if asciiLower ((userInput a (some "y")).getD "") ≠ "y" then (.declinedConfirm, [])
          else
            match convert_data schema rows with
            | .error _ => (.interrupted, [])
            | .ok data =>
              match rest3 with
              | [] => (.interrupted, [])
              | b :: _ =>
                if asciiLower ((userInput b (some "y")).getD "") ≠ "y" then (.declinedPreview, [])
                else (.completed, [(op, data)])

/-- Scanner state of `find_unclosed_string` (`find_unclosed_string.py`
lines 7-10) together with the line/column position of the next character. -/
structure ScanState where
  inString : Bool
  escapeNext : Bool
  startLine : Nat
  startCol : Nat
  line : Nat
  col : Nat
deriving DecidableEq

/-- Initial scanner state: before the first character of line 1. -/
def scanInit : ScanState := ⟨false, false, 0, 0, 1, 1⟩

/-- Processing of one character by the scanner loop
(`find_unclosed_string.py` lines 15-29), followed by the line/column
bookkeeping of the `enumerate` iteration. -/
def scanStep (s : ScanState) (c : Char) : ScanState :=
  let s1 :=
    if s.escapeNext then { s with escapeNext := false }
    else if c = '\\' then { s with escapeNext := true }
    else if c = '"' && !s.inString then
      { s with inString := true, startLine := s.line, startCol := s.col }
    else if c = '"' && s.inString then { s with inString := false }
    else s
  if c = '\n' then { s1 with line := s.line + 1, col := 1 }
  else { s1 with col := s.col + 1 }

/-- Scanner state after consuming a whole character sequence. -/
def scanChars (l : List Char) (s : ScanState) : ScanState := l.foldl scanStep s

/-- Model of `find_unclosed_string` (`find_unclosed_string.py` lines 4-60)
on the character content of the file: the reported start line and column of
the unterminated string when the string state is still open at end of file,
`none` otherwise (the source returns `string_start_line` and prints the
column and a context window alongside). -/
def find_unclosed_string (l : List Char) : Option (Nat × Nat) :=
  let s := scanChars l scanInit
  if s.inString then some (s.startLine, s.startCol) else none

/-- Decimal digit character for `d < 10`. -/
def digitChar (d : Nat) : Char := Char.ofNat (48 + d)

/-- Big-endian decimal digits of `n`, by fueled division (`fuel ≥ n`
suffices); empty on `n = 0`. -/
def natReprAux : Nat → Nat → List Char
  | 0, _ => []
  | fuel + 1, n => if n = 0 then [] else natReprAux fuel (n / 10) ++ [digitChar (n % 10)]

/-- Decimal representation of a natural number. -/
def natRepr (n : Nat) : List Char := if n = 0 then ['0'] else natReprAux n n

/-- Decimal representation of an integer (Python `repr` of an `int`). -/
def intRepr (n : Int) : List Char :=
  if n < 0 then '-' :: natRepr (-n).toNat else natRepr n.toNat

/-- Smallest `k ≤ d` with `d ∣ 10 ^ k`, when one exists: the number of
decimal places needed to write a rational with denominator `d` exactly. -/
def findK (d : Nat) : Option Nat := (List.range (d + 1)).find? (fun k => 10 ^ k % d == 0)

/-- Exact decimal representation of a rational whose denominator divides a
power of ten, always with a decimal point (as Python `repr` of a float);
stands in for CPython's shortest-round-trip `float_repr`, which prints the
same value in possibly different formatting. -/
def ratRepr (q : Rat) : List Char :=
  let sign : List Char := if q < 0 then ['-'] else []
  match findK q.den with
  | some k =>
    let ds0 := natRepr (q.num.natAbs * 10 ^ k / q.den)
    let ds := if k + 1 ≤ ds0.length then ds0 else List.replicate (k + 1 - ds0.length) '0' ++ ds0
    sign ++ ds.take (ds.length - k) ++ '.' :: (if k = 0 then ['0'] else ds.drop (ds.length - k))
  | none => ['0', '.', '0']

/-- Serialization of one float value, as the `json` module writes it
(`Infinity`, `-Infinity` and `NaN` for the special values). -/
def floatRepr : PyFloat → List Char
  | .finite q => ratRepr q
  | .inf => "Infinity".data
  | .ninf => "-Infinity".data
  | .nan => "NaN".data

/-- Lowercase hexadecimal digit character for `d < 16`. -/
def hexDigit (d : Nat) : Char :=
  if d < 10 then Char.ofNat (48 + d) else Char.ofNat (87 + d)

/-- JSON string escaping of one character with `ensure_ascii=False`: only
the quote, the backslash and control characters are escaped. -/
def escChar (c : Char) : List Char :=
  if c = '"' then ['\\', '"']
  else if c = '\\' then ['\\', '\\']
  else if c = '\n' then ['\\', 'n']
  else if c = '\t' then ['\\', 't']
  else if c = '\r' then ['\\', 'r']
  else if c = '\x08' then ['\\', 'b']
  else if c = '\x0c' then ['\\', 'f']
  else if c.toNat < 32 then
    ['\\', 'u', '0', '0', hexDigit (c.toNat / 16), hexDigit (c.toNat % 16)]
  else [c]

/-- JSON escaping of a character sequence. -/
def escList : List Char → List Char
  | [] => []
  | c :: r => escChar c ++ escList r

/-- A JSON string literal, quotes included. -/
def strRepr (s : String) : List Char := '"' :: (escList s.data ++ ['"'])

/-- Serialization of one scalar value as the `json` module writes it. -/
def valueRepr : JValue → List Char
  | .null => "null".data
  | .bool true => "true".data
  | .bool false => "false".data
  | .int n => intRepr n
  | .float f => floatRepr f
  | .str s => strRepr s

/-- Join pieces with a separator. -/
def joinSep (sep : List Char) : List (List Char) → List Char
  | [] => []
  | [x] => x
  | x :: xs => x ++ sep ++ joinSep sep xs

/-- One `"key": value` member, without indentation. -/
def memberText (kv : String × JValue) : List Char :=
  strRepr kv.1 ++ ':' :: ' ' :: valueRepr kv.2

/-- One `"key": value` member line at the indentation `json.dump(indent=2)`
uses inside a record. -/
def memberRepr (kv : String × JValue) : List Char :=
  "    ".data ++ memberText kv

/-- One converted record as an indented JSON object. -/
def recordRepr (r : List (String × JValue)) : List Char :=
  match r with
  | [] => "\x7b\x7d".data
  | _ => '{' :: '\n' :: (joinSep (",\n".data) (r.map memberRepr) ++ "\n  \x7d".data)

/-- Model of the text `save_json` writes (`csv_converter.py` lines 230-237):
`json.dump(data, indent=2, ensure_ascii=False)` on the converted record
set. -/
def save_json_text (data : List (List (String × JValue))) : List Char :=
  match data with
  | [] => "[]".data
  | _ => '[' :: '\n' ::
      (joinSep (",\n".data) (data.map (fun r => "  ".data ++ recordRepr r)) ++ "\n]".data)

/-- JSON whitespace. -/
def isJsonWs (c : Char) : Bool := c == ' ' || c == '\t' || c == '\n' || c == '\r'

/-- Skip JSON whitespace. -/
def skipWs (l : List Char) : List Char := l.dropWhile isJsonWs

/-- Value of one hexadecimal digit character. -/
def hexVal (c : Char) : Nat :=
  if '0' ≤ c ∧ c ≤ '9' then c.toNat - 48
  else if 'a' ≤ c ∧ c ≤ 'f' then c.toNat - 87
  else if 'A' ≤ c ∧ c ≤ 'F' then c.toNat - 55
  else 0

/-- Decoding of a single-character JSON escape. -/
def escDecode (e : Char) : Option Char :=
  if e = '"' then some '"'
  else if e = '\\' then some '\\'
  else if e = '/' then some '/'
  else if e = 'n' then some '\n'
  else if e = 't' then some '\t'
  else if e = 'r' then some '\r'
  else if e = 'b' then some '\x08'
  else if e = 'f' then some '\x0c'
  else none

/-- Parse the body of a JSON string literal after the opening quote, up to
and including the closing quote; returns the decoded characters and the
remaining input. -/
def parseStringBody : List Char → Option (List Char × List Char)
  | [] => none
  | c :: r =>
    if c = '"' then some ([], r)
    else if c = '\\' then
      match r with
      | 'u' :: a :: b :: d :: e :: r2 =>
        (parseStringBody r2).map (fun p =>
          (Char.ofNat (((hexVal a * 16 + hexVal b) * 16 + hexVal d) * 16 + hexVal e) :: p.1,
            p.2))
      | e :: r2 =>
        match escDecode e with
        | none => none
        | some c2 => (parseStringBody r2).map (fun p => (c2 :: p.1, p.2))
      | [] => none
    else (parseStringBody r).map (fun p => (c :: p.1, p.2))

/-- Parse a JSON number (the writer never emits exponents, so the exponent
clause of the grammar is not needed): an integer when there is no decimal
point, a float otherwise. -/
def parseNumber (l : List Char) : Option (JValue × List Char) :=
  let neg : Bool := l.head? == some '-'
  let l1 := if neg then l.tail else l
  let ds := l1.takeWhile Char.isDigit
  let r1 := l1.dropWhile Char.isDigit
  if ds.isEmpty then none
  else if r1.head? == some '.' then
    let r2 := r1.tail
    let fs := r2.takeWhile Char.isDigit
    let r3 := r2.dropWhile Char.isDigit
    if fs.isEmpty then none
    else
      let m := mkRat (digitsToNat ds * 10 ^ fs.length + digitsToNat fs) (10 ^ fs.length)
      some (.float (.finite (if neg then -m else m)), r3)
  else
    some (.int (if neg then -(digitsToNat ds : Int) else (digitsToNat ds : Int)), r1)

/-- Parse one scalar JSON value: a keyword, one of the `json` module's
non-standard float spellings, a string, or a number. -/
def parseScalar (l : List Char) : Option (JValue × List Char) :=
  if l.take 4 = "null".data then some (.null, l.drop 4)
  else if l.take 4 = "true".data then some (.bool true, l.drop 4)
  else if l.take 5 = "false".data then some (.bool false, l.drop 5)
  else if l.take 3 = "NaN".data then some (.float .nan, l.drop 3)
  else if l.take 8 = "Infinity".data then some (.float .inf, l.drop 8)
  else if l.take 9 = "-Infinity".data then some (.float .ninf, l.drop 9)
  else
    match l with
    | c :: r =>
      if c = '"' then (parseStringBody r).map (fun p => (JValue.str (.mk p.1), p.2))
      else parseNumber (c :: r)
    | [] => none

/-- Parse the members of a JSON object, positioned at the opening quote of
a key; consumes through the closing brace.  `fuel` bounds the number of
members. -/
def parseMembers : Nat → List Char → Option (List (String × JValue) × List Char)
  | 0, _ => none
  | fuel + 1, l =>
    match l with
    | '"' :: r =>
      match parseStringBody r with
      | none => none
      | some (k, r1) =>
        match skipWs r1 with
        | ':' :: r2 =>
          match parseScalar (skipWs r2) with
          | none => none
          | some (v, r3) =>
            match skipWs r3 with
            | ',' :: r4 =>
              (parseMembers fuel (skipWs r4)).map (fun p => ((String.mk k, v) :: p.1, p.2))
            | '}' :: r4 => some ([(String.mk k, v)], r4)
            | _ => none
        | _ => none
    | _ => none

/-- Parse a JSON object of scalar members. -/
def parseObject (fuel : Nat) : List Char → Option (List (String × JValue) × List Char)
  | '{' :: r =>
    match skipWs r with
    | '}' :: r1 => some ([], r1)
    | r1 => parseMembers fuel r1
  | _ => none

/-- Parse the elements of a JSON array of objects, positioned at the first
element; consumes through the closing bracket. -/
def parseElements : Nat → List Char → Option (List (List (String × JValue)) × List Char)
  | 0, _ => none
  | fuel + 1, l =>
    match parseObject fuel l with
    | none => none
    | some (ob, r1) =>
      match skipWs r1 with
      | ',' :: r2 => (parseElements fuel (skipWs r2)).map (fun p => (ob :: p.1, p.2))
      | ']' :: r2 => some ([ob], r2)
      | _ => none

/-- Model of `json.load` on the class of documents `save_json` writes (a
top-level array of flat objects with scalar values): full parse of the
text, requiring only whitespace after the closing bracket. -/
def json_loads (l : List Char) : Option (List (List (String × JValue))) :=
  match skipWs l with
  | '[' :: r =>
    match skipWs r with
    | ']' :: r1 => if (skipWs r1).isEmpty then some [] else none
    | r1 =>
      match parseElements (l.length + 1) r1 with
      | none => none
      | some (rs, r2) => if (skipWs r2).isEmpty then some rs else none
  | _ => none

section Lemmas

/-- `mapE` on a successful run returns one output per input, in order, each
the image of the input at the same position. -/
theorem mapE_ok {α β : Type} {f : α → Except PyErr β} :
    ∀ {l : List α} {bs : List β}, mapE f l = .ok bs →
      bs.length = l.length ∧ ∀ (i : Nat) (h1 : i < bs.length) (h2 : i < l.length),
        f (l.get ⟨i, h2⟩) = .ok (bs.get ⟨i, h1⟩) := by
  intro l
  induction l with
  | nil =>
    intro bs h
    simp only [mapE] at h
    cases h
    exact ⟨rfl, fun i h1 h2 => absurd h1 (by simp)⟩
  | cons a l ih =>
    intro bs h
    simp only [mapE] at h
    cases hfa : f a with
    | error e => rw [hfa] at h; cases h
    | ok b =>
      rw [hfa] at h
      cases hml : mapE f l with
      | error e => rw [hml] at h; cases h
      | ok bs' =>
        rw [hml] at h
        cases h
        obtain ⟨hlen, hget⟩ := ih hml
        refine ⟨by simpa using hlen, ?_⟩
        intro i h1 h2
        cases i with
        | zero => simpa using hfa
        | succ j =>
          simpa using hget j (by simpa using h1) (by simpa using h2)

/-- A key whose lookup fails is not among the schema's target keys. -/
theorem lookup_none_not_mem {k : String} :
    ∀ {schema : Schema}, List.lookup k schema = none → k ∉ schema.map Prod.fst := by
  intro schema
  induction schema with
  | nil => intro _ h; simp at h
  | cons e s ih =>
    intro h
    simp only [List.lookup] at h
    by_cases hk : k = e.1
    · simp [hk] at h
    · intro hmem
      rcases (by simpa using hmem : k = e.1 ∨ k ∈ s.map Prod.fst) with h1 | h1
      · exact hk h1
      · have : List.lookup k s = none := by
          rcases hbeq : (k == e.1) with _ | _
          · rw [hbeq] at h; simpa using h
          · exact absurd (by simpa using hbeq) hk
        exact ih this h1

/-- When `processColumn` yields a schema entry, its target key was not
already present in the schema. -/
theorem processColumn_ok_lookup_none {schema : Schema} {header k : String} {m : MapInfo} :
    ∀ {inputs rest : List String},
      processColumn schema header inputs = some (some (k, m), rest) →
      List.lookup k schema = none := by
  intro inputs
  induction inputs with
  | nil => intro rest h; simp [processColumn] at h
  | cons i is ih =>
    intro rest h
    simp only [processColumn] at h
    cases hui : userInput i none with
    | none => rw [hui] at h; simp at h
    | some key =>
      rw [hui] at h
      dsimp only at h
      by_cases hmem : (List.lookup key schema).isSome
      · rw [if_pos hmem] at h
        exact ih h
      · rw [if_neg hmem] at h
        cases hdt : get_data_type is with
        | none => rw [hdt] at h; cases h
        | some p =>
          rw [hdt] at h
          rcases p with ⟨dt?, rest2⟩
          cases dt? with
          | none => simp at h
          | some dt =>
            simp only [Option.some.injEq, Prod.mk.injEq] at h
            obtain ⟨⟨hk, _⟩, _⟩ := h
            cases hk
            exact Option.not_isSome_iff_eq_none.mp hmem

/-- `create_key_mapping` preserves distinctness of target keys: starting
from a schema with pairwise-distinct keys, the resulting schema again has
pairwise-distinct keys. -/
theorem create_key_mapping_nodup :
    ∀ (hs : List String) {schema out : Schema} {inputs rest : List String},
      (schema.map Prod.fst).Nodup →
      create_key_mapping schema hs inputs = some (out, rest) →
      (out.map Prod.fst).Nodup := by
  intro hs
  induction hs with
  | nil =>
    intro schema out inputs rest hnd h
    simp only [create_key_mapping] at h
    cases h
    exact hnd
  | cons hcol hs ih =>
    intro schema out inputs rest hnd h
    simp only [create_key_mapping] at h
    cases hpc : processColumn schema hcol inputs with
    | none => rw [hpc] at h; cases h
    | some p =>
      rw [hpc] at h
      rcases p with ⟨e?, rest1⟩
      cases e? with
      | none => exact ih hnd h
      | some e =>
        refine ih ?_ h
        rw [List.map_append]
        rcases e with ⟨k, m⟩
        have hnone := processColumn_ok_lookup_none hpc
        have hnotmem := lookup_none_not_mem hnone
        simp only [List.map_cons, List.map_nil]
        rw [List.nodup_append]
        exact ⟨hnd, List.nodup_singleton _, by simpa using hnotmem⟩

end Lemmas

section ScannerSpec

/-- Length of the run of consecutive backslashes at the end of `p`. -/
def trailingBackslashes (p : List Char) : Nat :=
  (p.reverse.takeWhile (· == '\\')).length

/-- Specification-side characterization of a quote the scanner treats as a
string delimiter: a double quote preceded by an even run of backslashes. -/
def activeQuoteAt (l : List Char) (i : Nat) : Bool :=
  (l.get? i == some '"') && (trailingBackslashes (l.take i) % 2 == 0)

/-- Indices of the delimiter quotes of the file, in order. -/
def activeQuoteIdxs (l : List Char) : List Nat :=
  (List.range l.length).filter (activeQuoteAt l)

/-- Number of delimiter quotes of the file. -/
def activeCount (l : List Char) : Nat := (activeQuoteIdxs l).length

/-- Index of the last delimiter quote of the file, if any. -/
def lastActive (l : List Char) : Option Nat := (activeQuoteIdxs l).getLast?

/-- One-based line number of the character at index `i`. -/
def lineOfIdx (l : List Char) (i : Nat) : Nat := 1 + (l.take i).count '\n'

/-- One-based column number of the character at index `i` within its line. -/
def colOfIdx (l : List Char) (i : Nat) : Nat :=
  ((l.take i).reverse.takeWhile (· != '\n')).length + 1

/-- Invariant tying the scanner state after consuming `p` to the
specification-side description: the escape flag is the parity of the
trailing backslash run, the in-string flag is the parity of the number of
delimiter quotes, position tracking matches `lineOfIdx`/`colOfIdx`, and
while a string is open the recorded start position is the position of the
last delimiter quote. -/
structure ScanInv (p : List Char) (s : ScanState) : Prop where
  esc : s.escapeNext = (trailingBackslashes p % 2 == 1)
  ins : s.inString = (activeCount p % 2 == 1)
  hline : s.line = lineOfIdx p p.length
  hcol : s.col = colOfIdx p p.length
  hstart : s.inString = true → ∃ i, lastActive p = some i ∧
    s.startLine = lineOfIdx p i ∧ s.startCol = colOfIdx p i

theorem trailingBackslashes_append (p : List Char) (c : Char) :
    trailingBackslashes (p ++ [c]) =
      if c = '\\' then trailingBackslashes p + 1 else 0 := by
  unfold trailingBackslashes
  rw [List.reverse_append]
  by_cases hc : c = '\\'
  · simp [hc, List.takeWhile]
  · have hb : (c == '\\') = false := beq_eq_false_iff_ne.mpr hc
    simp [hc, hb, List.takeWhile]

theorem take_append_le {α : Type} (p : List α) (x : α) (i : Nat) (h : i ≤ p.length) :
    (p ++ [x]).take i = p.take i := by
  rw [List.take_append_eq_append_take]
  simp [Nat.sub_eq_zero_of_le h]

theorem activeQuoteAt_append_lt (l : List Char) (c : Char) (i : Nat) (h : i < l.length) :
    activeQuoteAt (l ++ [c]) i = activeQuoteAt l i := by
  unfold activeQuoteAt
  rw [List.get?_append h, take_append_le _ _ _ (le_of_lt h)]

theorem activeQuoteAt_append_self (l : List Char) (c : Char) :
    activeQuoteAt (l ++ [c]) l.length =
      ((c == '"') && (trailingBackslashes l % 2 == 0)) := by
  unfold activeQuoteAt
  rw [take_append_le _ _ _ le_rfl, List.take_length, List.get?_concat_length]
  simp

theorem activeQuoteIdxs_append (l : List Char) (c : Char) :
    activeQuoteIdxs (l ++ [c]) = activeQuoteIdxs l ++
      (if (c == '"') && (trailingBackslashes l % 2 == 0) then [l.length] else []) := by
  unfold activeQuoteIdxs
  rw [List.length_append]
  simp only [List.length_singleton]
  rw [List.range_succ, List.filter_append]
  congr 1
  · apply List.filter_congr
    intro i hi
    exact activeQuoteAt_append_lt l c i (List.mem_range.mp hi)
  · rw [List.filter_singleton, activeQuoteAt_append_self]
    simp [Bool.cond_eq_if]

theorem lineOfIdx_append_le (l : List Char) (c : Char) (i : Nat) (h : i ≤ l.length) :
    lineOfIdx (l ++ [c]) i = lineOfIdx l i := by
  unfold lineOfIdx
  rw [take_append_le _ _ _ h]

theorem colOfIdx_append_le (l : List Char) (c : Char) (i : Nat) (h : i ≤ l.length) :
    colOfIdx (l ++ [c]) i = colOfIdx l i := by
  unfold colOfIdx
  rw [take_append_le _ _ _ h]

theorem lineOfIdx_append_end (l : List Char) (c : Char) :
    lineOfIdx (l ++ [c]) (l.length + 1) =
      if c = '\n' then lineOfIdx l l.length + 1 else lineOfIdx l l.length := by
  unfold lineOfIdx
  rw [List.take_length, show l.length + 1 = (l ++ [c]).length by simp, List.take_length]
  by_cases hc : c = '\n'
  · simp [hc, List.count_append]
    omega
  · have hb : (c == '\n') = false := beq_eq_false_iff_ne.mpr hc
    simp [hc, hb, List.count_append, List.count_cons]

theorem colOfIdx_append_end (l : List Char) (c : Char) :
    colOfIdx (l ++ [c]) (l.length + 1) =
      if c = '\n' then 1 else colOfIdx l l.length + 1 := by
  unfold colOfIdx
  rw [List.take_length, show l.length + 1 = (l ++ [c]).length by simp, List.take_length,
    List.reverse_append]
  by_cases hc : c = '\n'
  · simp [hc, List.takeWhile]
  · have hb : (c != '\n') = true := by simp [hc]
    simp [hc, hb, List.takeWhile]

theorem scanStep_escapeNext (s : ScanState) (c : Char) :
    (scanStep s c).escapeNext =
      (if s.escapeNext then false else if c = '\\' then true else s.escapeNext) := by
  unfold scanStep
  by_cases h1 : s.escapeNext <;> by_cases h2 : c = '\\' <;> by_cases h3 : c = '"' <;>
    by_cases h4 : s.inString <;> by_cases h5 : c = '\n' <;> simp [h1, h2, h3, h4, h5]

theorem scanStep_inString (s : ScanState) (c : Char) :
    (scanStep s c).inString =
      (if s.escapeNext then s.inString
        else if c = '\\' then s.inString
        else if c = '"' then !s.inString else s.inString) := by
  unfold scanStep
  by_cases h1 : s.escapeNext <;> by_cases h2 : c = '\\' <;> by_cases h3 : c = '"' <;>
    by_cases h4 : s.inString <;> by_cases h5 : c = '\n' <;> simp [h1, h2, h3, h4, h5]

theorem scanStep_startLine (s : ScanState) (c : Char) :
    (scanStep s c).startLine =
      (if !s.escapeNext && (c = '"') && !s.inString then s.line else s.startLine) := by
  unfold scanStep
  by_cases h1 : s.escapeNext <;> by_cases h2 : c = '\\' <;> by_cases h3 : c = '"' <;>
    by_cases h4 : s.inString <;> by_cases h5 : c = '\n' <;> simp [h1, h2, h3, h4, h5]

theorem scanStep_startCol (s : ScanState) (c : Char) :
    (scanStep s c).startCol =
      (if !s.escapeNext && (c = '"') && !s.inString then s.col else s.startCol) := by
  unfold scanStep
  by_cases h1 : s.escapeNext <;> by_cases h2 : c = '\\' <;> by_cases h3 : c = '"' <;>
    by_cases h4 : s.inString <;> by_cases h5 : c = '\n' <;> simp [h1, h2, h3, h4, h5]

theorem scanStep_line (s : ScanState) (c : Char) :
    (scanStep s c).line = (if c = '\n' then s.line + 1 else s.line) := by
  unfold scanStep
  by_cases h1 : s.escapeNext <;> by_cases h2 : c = '\\' <;> by_cases h3 : c = '"' <;>
    by_cases h4 : s.inString <;> by_cases h5 : c = '\n' <;> simp [h1, h2, h3, h4, h5]

theorem scanStep_col (s : ScanState) (c : Char) :
    (scanStep s c).col = (if c = '\n' then 1 else s.col + 1) := by
  unfold scanStep
  by_cases h1 : s.escapeNext <;> by_cases h2 : c = '\\' <;> by_cases h3 : c = '"' <;>
    by_cases h4 : s.inString <;> by_cases h5 : c = '\n' <;> simp [h1, h2, h3, h4, h5]

theorem activeCount_append (l : List Char) (c : Char) :
    activeCount (l ++ [c]) = activeCount l +
      (if (c == '"') && (trailingBackslashes l % 2 == 0) then 1 else 0) := by
  unfold activeCount
  rw [activeQuoteIdxs_append]
  by_cases h : ((c == '"') && (trailingBackslashes l % 2 == 0)) = true <;> simp [h]

theorem lastActive_append (l : List Char) (c : Char) :
    lastActive (l ++ [c]) =
      (if (c == '"') && (trailingBackslashes l % 2 == 0) then some l.length
        else lastActive l) := by
  unfold lastActive
  rw [activeQuoteIdxs_append]
  by_cases h : ((c == '"') && (trailingBackslashes l % 2 == 0)) = true <;> simp [h]

theorem lastActive_lt {l : List Char} {i : Nat} (h : lastActive l = some i) : i < l.length := by
  unfold lastActive at h
  have hmem : i ∈ activeQuoteIdxs l := by
    obtain ⟨hne, heq⟩ := List.mem_getLast?_eq_getLast (by simpa [Option.mem_def] using h)
    rw [heq]
    exact List.getLast_mem hne
  have := List.mem_filter.mp hmem
  exact List.mem_range.mp this.1

/-- The scanner invariant holds at the start of the file. -/
theorem scanInv_init : ScanInv [] scanInit := by
  refine ⟨rfl, rfl, rfl, rfl, ?_⟩
  intro h
  simp [scanInit] at h

theorem scanStep_inString_id (s : ScanState) (c : Char)
    (h : s.escapeNext = true ∨ c ≠ '"') : (scanStep s c).inString = s.inString := by
  unfold scanStep
  rcases h with h | h
  · by_cases h5 : c = '\n' <;> simp [h, h5]
  · by_cases hE : s.escapeNext <;> by_cases hBS : c = '\\' <;> by_cases h5 : c = '\n' <;>
      simp [hE, hBS, h, h5]

theorem scanStep_inString_toggle (s : ScanState) (c : Char)
    (h1 : s.escapeNext = false) (h2 : c = '"') : (scanStep s c).inString = !s.inString := by
  unfold scanStep
  subst h2
  by_cases h4 : s.inString <;> simp [h1, h4]

theorem scanStep_start_id (s : ScanState) (c : Char)
    (h : s.escapeNext = true ∨ c ≠ '"' ∨ s.inString = true) :
    (scanStep s c).startLine = s.startLine ∧ (scanStep s c).startCol = s.startCol := by
  unfold scanStep
  rcases h with h | h | h
  · by_cases h5 : c = '\n' <;> simp [h, h5]
  · by_cases hE : s.escapeNext <;> by_cases hBS : c = '\\' <;> by_cases h5 : c = '\n' <;>
      simp [hE, hBS, h, h5]
  · by_cases hE : s.escapeNext <;> by_cases hBS : c = '\\' <;> by_cases hQ : c = '"' <;>
      by_cases h5 : c = '\n' <;> simp [hE, hBS, hQ, h, h5]

theorem scanStep_start_set (s : ScanState) (c : Char)
    (h1 : s.escapeNext = false) (h2 : c = '"') (h3 : s.inString = false) :
    (scanStep s c).startLine = s.line ∧ (scanStep s c).startCol = s.col := by
  unfold scanStep
  subst h2
  simp [h1, h3]

/-- One scanner step preserves the invariant. -/
theorem scanInv_step {p : List Char} {s : ScanState} (c : Char) (h : ScanInv p s) :
    ScanInv (p ++ [c]) (scanStep s c) := by
  obtain ⟨hesc, hins, hline, hcol, hstart⟩ := h
  have htb := trailingBackslashes_append p c
  have hcount := activeCount_append p c
  have hlast := lastActive_append p c
  have hlen : (p ++ [c]).length = p.length + 1 := by simp
  have HL : (scanStep s c).line = lineOfIdx (p ++ [c]) (p ++ [c]).length := by
    rw [scanStep_line, hlen, lineOfIdx_append_end]
    by_cases hNL : c = '\n' <;> simp [hNL, hline]
  have HC : (scanStep s c).col = colOfIdx (p ++ [c]) (p ++ [c]).length := by
    rw [scanStep_col, hlen, colOfIdx_append_end]
    by_cases hNL : c = '\n' <;> simp [hNL, hcol]
  rcases Nat.mod_two_eq_zero_or_one (trailingBackslashes p) with hpar | hpar
  · have hescv : s.escapeNext = false := by rw [hesc, hpar]; rfl
    refine ⟨?_, ?_, HL, HC, ?_⟩
    · rw [scanStep_escapeNext, htb, hescv]
      by_cases hBS : c = '\\'
      · have h1 : (trailingBackslashes p + 1) % 2 = 1 := by omega
        simp [hBS, h1]
      · simp [hBS, hescv]
    · rw [hcount]
      by_cases hQ : c = '"'
      · have h1 : ((c == '"') && (trailingBackslashes p % 2 == 0)) = true := by
          rw [hQ, hpar]; rfl
        rw [if_pos h1, scanStep_inString_toggle s c hescv hQ]
        rcases Nat.mod_two_eq_zero_or_one (activeCount p) with hc2 | hc2
        · have hv : s.inString = false := by rw [hins, hc2]; rfl
          have h2 : (activeCount p + 1) % 2 = 1 := by omega
          simp [hv, h2]
        · have hv : s.inString = true := by rw [hins, hc2]; rfl
          have h2 : (activeCount p + 1) % 2 = 0 := by omega
          simp [hv, h2]
      · have hcq : (c == '"') = false := beq_eq_false_iff_ne.mpr hQ
        rw [scanStep_inString_id s c (Or.inr hQ)]
        simp [hcq, hins]
    · intro hs2
      by_cases hQ : c = '"'
      · by_cases hIS : s.inString
        · exfalso
          rw [scanStep_inString_toggle s c hescv hQ] at hs2
          rw [(by simpa using hIS : s.inString = true)] at hs2
          simp at hs2
        · have hIS2 : s.inString = false := by simpa using hIS
          obtain ⟨hSL, hSC⟩ := scanStep_start_set s c hescv hQ hIS2
          have hnew : ((c == '"') && (trailingBackslashes p % 2 == 0)) = true := by
            rw [hQ, hpar]; rfl
          refine ⟨p.length, ?_, ?_, ?_⟩
          · rw [hlast, if_pos hnew]
          · rw [hSL, hline, lineOfIdx_append_le _ _ _ le_rfl]
          · rw [hSC, hcol, colOfIdx_append_le _ _ _ le_rfl]
      · rw [scanStep_inString_id s c (Or.inr hQ)] at hs2
        obtain ⟨hSL, hSC⟩ := scanStep_start_id s c (Or.inr (Or.inl hQ))
        obtain ⟨i, hi, hl2, hc2⟩ := hstart hs2
        have hilt : i < p.length := lastActive_lt hi
        have hcq : (c == '"') = false := beq_eq_false_iff_ne.mpr hQ
        refine ⟨i, ?_, ?_, ?_⟩
        · rw [hlast]
          simp [hcq, hi]
        · rw [hSL, hl2, lineOfIdx_append_le _ _ _ (le_of_lt hilt)]
        · rw [hSC, hc2, colOfIdx_append_le _ _ _ (le_of_lt hilt)]
  · have hescv : s.escapeNext = true := by rw [hesc, hpar]; rfl
    have hc0 : (trailingBackslashes p % 2 == 0) = false := by rw [hpar]; rfl
    refine ⟨?_, ?_, HL, HC, ?_⟩
    · rw [scanStep_escapeNext, htb, hescv]
      by_cases hBS : c = '\\'
      · have h1 : (trailingBackslashes p + 1) % 2 = 0 := by omega
        simp [hBS, h1]
      · simp [hBS]
    · rw [scanStep_inString_id s c (Or.inl hescv), hcount]
      simp [hc0, hins]
    · intro hs2
      rw [scanStep_inString_id s c (Or.inl hescv)] at hs2
      obtain ⟨hSL, hSC⟩ := scanStep_start_id s c (Or.inl hescv)
      obtain ⟨i, hi, hl2, hc2⟩ := hstart hs2
      have hilt : i < p.length := lastActive_lt hi
      refine ⟨i, ?_, ?_, ?_⟩
      · rw [hlast]
        simp [hc0, hi]
      · rw [hSL, hl2, lineOfIdx_append_le _ _ _ (le_of_lt hilt)]
      · rw [hSC, hc2, colOfIdx_append_le _ _ _ (le_of_lt hilt)]

/-- The invariant propagates over any character suffix. -/
theorem scanInv_chars : ∀ (suffix p : List Char) (s : ScanState),
    ScanInv p s → ScanInv (p ++ suffix) (List.foldl scanStep s suffix) := by
  intro suffix
  induction suffix with
  | nil => intro p s h; simpa using h
  | cons c cs ih =>
    intro p s h
    have h2 := ih (p ++ [c]) (scanStep s c) (scanInv_step c h)
    simpa [List.append_assoc] using h2

/-- The invariant holds of the scanner state at end of file. -/
theorem scanInv_full (l : List Char) : ScanInv l (scanChars l scanInit) := by
  have h := scanInv_chars l [] scanInit scanInv_init
  simpa [scanChars] using h

end ScannerSpec

/-- Claim C1: the type-conversion function satisfies the spec's unit
equations: `convert("", t)` is null (without warning) for every data type
`t`; `convert("123.0", integer) = 123`; `convert("3.14", float) = 3.14`;
`convert("Yes", boolean) = true`; `convert("no", boolean) = false`; and
`convert("abc", integer)` is null with a warning emitted. -/
theorem claim_c1_convert_unit_equations :
    (∀ t, convert_value "" t = .ok (.null, false)) ∧
    convert_value "123.0" .integer = .ok (.int 123, false) ∧
    convert_value "3.14" .float = .ok (.float (.finite (157 / 50)), false) ∧
    convert_value "Yes" .boolean = .ok (.bool true, false) ∧
    convert_value "no" .boolean = .ok (.bool false, false) ∧
    convert_value "abc" .integer = .ok (.null, true) := by
  refine ⟨fun t => by cases t <;> decide, by decide, ?_, by decide, by decide, by decide⟩
  have h : (157 / 50 : Rat) = mkRat 157 50 := by rw [Rat.mkRat_eq_div]; norm_num
  rw [h]; decide

/-- Claim C2: whenever the row converter produces a converted record set,
it has one record per input raw row, and the record at each position is the
conversion of the raw row at the same position. -/
theorem claim_c2_convert_data_length_order (schema : Schema) (rows : List RawRow)
    (recs : List (List (String × JValue))) (h : convert_data schema rows = .ok recs) :
    recs.length = rows.length ∧ ∀ (i : Nat) (h1 : i < recs.length) (h2 : i < rows.length),
      convert_row schema (rows.get ⟨i, h2⟩) = .ok (recs.get ⟨i, h1⟩) :=
  mapE_ok h

/-- Witness for claim C2 at a concrete schema and row list. -/
theorem claim_c2_witness :
    ([[("k", JValue.str "x")], [("k", JValue.str "y")]].length =
      ([[("a", "x")], [("a", "y")]] : List RawRow).length) ∧
    ∀ (i : Nat) (h1 : i < [[("k", JValue.str "x")], [("k", JValue.str "y")]].length)
      (h2 : i < ([[("a", "x")], [("a", "y")]] : List RawRow).length),
      convert_row [("k", ⟨"a", DataType.string⟩)]
          (([[("a", "x")], [("a", "y")]] : List RawRow).get ⟨i, h2⟩) =
        .ok ([[("k", JValue.str "x")], [("k", JValue.str "y")]].get ⟨i, h1⟩) :=
  claim_c2_convert_data_length_order [("k", ⟨"a", DataType.string⟩)]
    [[("a", "x")], [("a", "y")]] [[("k", JValue.str "x")], [("k", JValue.str "y")]] (by decide)

/-- Claim C3 counterexample: for a schema entry of type boolean whose source
column is missing from the raw row, the converter stores `null`, not
`false` as the claim states. -/
theorem claim_c3_counterexample :
    convert_row [("is_active", ⟨"active", DataType.boolean⟩)] [] =
      .ok [("is_active", JValue.null)] ∧ JValue.null ≠ JValue.bool false := by
  exact ⟨by decide, by decide⟩

/-- Claim C3 as amended: a missing source column is treated as an empty
value and produces `null` in the converted record for every data type,
including boolean. -/
theorem claim_c3_missing_column_null (key col : String) (t : DataType) (row : RawRow)
    (h : List.lookup col row = none) :
    convert_row [(key, ⟨col, t⟩)] row = .ok [(key, JValue.null)] := by
  have hget : rowGet row col = "" := by simp [rowGet, h]
  have hcv : convert_value "" t = .ok (.null, false) := by cases t <;> decide
  simp [convert_row, mapE, hget, hcv, Except.map]

/-- Witness for the amended claim C3 at a concrete entry and row. -/
theorem claim_c3_witness :
    convert_row [("is_active", ⟨"active", DataType.boolean⟩)] [("other", "1")] =
      .ok [("is_active", JValue.null)] :=
  claim_c3_missing_column_null "is_active" "active" DataType.boolean [("other", "1")] (by decide)

/-- Claim C4 (code bug): contrary to the claim and to the program's own help
text (`Leave data type blank to skip a custom key`), empty input at the
data-type prompt does not skip the column: `get_user_input` substitutes the
prompt default `"string"`, so a schema entry with data type string is
created for the accepted key. -/
theorem claim_c4_code_bug_eval :
    get_data_type [""] = some (some DataType.string, []) ∧
    create_key_mapping [] ["name"] ["k", ""] =
      some ([("k", ⟨"name", DataType.string⟩)], []) := by
  exact ⟨by decide, by decide⟩

/-- Claim C5: target keys in the schema are pairwise distinct at every point
of schema construction (first conjunct, stated from an arbitrary
intermediate schema), and a duplicate target key is rejected without
mutating the schema and without consuming the column: the loop continues on
the same column with the same schema and the remaining answers (second
conjunct). -/
theorem claim_c5_target_keys_distinct :
    (∀ (hs : List String) (schema out : Schema) (inputs rest : List String),
      (schema.map Prod.fst).Nodup →
      create_key_mapping schema hs inputs = some (out, rest) →
      (out.map Prod.fst).Nodup) ∧
    (∀ (schema : Schema) (header k : String) (rest : List String),
      pyStrip k ≠ "" → (List.lookup (pyStrip k) schema).isSome →
      processColumn schema header (k :: rest) = processColumn schema header rest) := by
  constructor
  · intro hs schema out inputs rest hnd h
    exact create_key_mapping_nodup hs hnd h
  · intro schema header k rest hk hdup
    simp [processColumn, userInput, hk, hdup]

/-- Witness for claim C5 at a concrete interaction: the duplicate key `k`
for the second column is rejected and re-prompted, and the final schema's
keys are pairwise distinct. -/
theorem claim_c5_witness :
    (([("k", ⟨"a", DataType.integer⟩), ("k2", ⟨"b", DataType.float⟩)] : Schema).map
      Prod.fst).Nodup ∧
    processColumn [("k", ⟨"a", DataType.integer⟩)] "b" ["k", "k2", "float"] =
      processColumn [("k", ⟨"a", DataType.integer⟩)] "b" ["k2", "float"] :=
  ⟨claim_c5_target_keys_distinct.1 ["a", "b"] [] _ ["k", "integer", "k", "k2", "float"] []
      (by decide) (by decide),
    claim_c5_target_keys_distinct.2 [("k", ⟨"a", DataType.integer⟩)] "b" "k" ["k2", "float"]
      (by decide) (by decide)⟩

/-- Claim C6 counterexample: converting the value `"inf"` with data type
integer raises `OverflowError` (Python `int(float('inf'))`), which the
`except (ValueError, TypeError)` clause does not catch, so an exception
escapes the converter and the run does not continue. -/
theorem claim_c6_counterexample :
    convert_value "inf" DataType.integer = .error .overflowError ∧
    convert_data [("years", ⟨"age", DataType.integer⟩)] [[("age", "inf")]] =
      .error .overflowError := by
  exact ⟨by decide, by decide⟩

/-- Claim C6 as amended: no exception escapes the cell converter — a failed
coercion degrades to null plus a warning — except in one case: data type
integer applied to a value that `float()` parses as an infinity, where an
uncaught `OverflowError` escapes.  In particular `ValueError` and
`TypeError` never escape, and for the other three data types the converter
always returns. -/
theorem claim_c6_no_exception_almost (v : String) (t : DataType) :
    ((convert_value v t).isOk = true ∨
      (t = DataType.integer ∧
        (pyFloatOfString (pyStrip v) = some .inf ∨ pyFloatOfString (pyStrip v) = some .ninf))) ∧
    convert_value v t ≠ .error .valueError ∧
    convert_value v t ≠ .error .typeError ∧
    (t ≠ DataType.integer → (convert_value v t).isOk = true) := by
  unfold convert_value
  by_cases hempty : v = "" || pyStrip v = ""
  · simp [hempty, Except.isOk, Except.toBool]
  · simp only [hempty, Bool.false_eq_true, if_false]
    cases t with
    | string => simp [convert_value_body, Except.isOk, Except.toBool]
    | boolean => simp [convert_value_body, Except.isOk, Except.toBool]
    | float =>
      simp only [convert_value_body]
      cases pyFloatOfString (pyStrip v) <;> simp [Except.isOk, Except.toBool]
    | integer =>
      simp only [convert_value_body]
      cases hf : pyFloatOfString (pyStrip v) with
      | none => simp [Except.isOk, Except.toBool]
      | some f => cases f <;> simp [pyIntOfFloat, Except.map, Except.isOk, Except.toBool]

/-- Witness for the amended claim C6: a value that fails integer coercion
(without being an infinity) yields a normal return. -/
theorem claim_c6_witness : (convert_value "abc" DataType.float).isOk = true :=
  (claim_c6_no_exception_almost "abc" DataType.float).2.2.2 (by decide)

/-- Claim C7: if a run does not reach the completed state — in particular
when the operator declines at the post-preview confirmation gate — the run
performs no file write, so the filesystem is left unchanged. -/
theorem claim_c7_no_write_unless_completed (fs headers : List String) (rows : List RawRow)
    (inputs : List String) (h : (converterRun fs headers rows inputs).1 ≠ .completed) :
    (converterRun fs headers rows inputs).2 = [] := by
  have hd : (converterRun fs headers rows inputs).2 = [] ∨
      (converterRun fs headers rows inputs).1 = .completed := by
    unfold converterRun
    repeat first | (left; rfl) | (right; rfl) | split
  cases hd with
  | inl h2 => exact h2
  | inr h2 => exact absurd h2 h

/-- Witness for claim C7: a concrete run in which the operator declines at
the post-preview gate writes nothing. -/
theorem claim_c7_witness :
    (converterRun ["data.csv"] ["a"] [[("a", "1")]] ["", "", "k", "string", "y", "n"]).2 = [] :=
  claim_c7_no_write_unless_completed ["data.csv"] ["a"] [[("a", "1")]]
    ["", "", "k", "string", "y", "n"] (by decide)

/-- The scanner leaves the in-string state unchanged across an odd run of
backslashes followed by a double quote: the quote is consumed as escaped,
whatever the in-string state was. -/
theorem scan_odd_backslashes_quote : ∀ (k : Nat) (s : ScanState), s.escapeNext = false →
    (scanChars (List.replicate (2 * k + 1) '\\' ++ ['"']) s).inString = s.inString := by
  intro k
  induction k with
  | zero =>
    intro s h
    show (List.foldl scanStep s ['\\', '"']).inString = s.inString
    rw [List.foldl_cons, List.foldl_cons, List.foldl_nil]
    have h1 : (scanStep s '\\').escapeNext = true := by
      rw [scanStep_escapeNext, h]
      simp
    have h2 : (scanStep s '\\').inString = s.inString :=
      scanStep_inString_id s '\\' (Or.inr (by decide))
    rw [scanStep_inString_id _ '"' (Or.inl h1), h2]
  | succ k ih =>
    intro s h
    have hrep : 2 * (k + 1) + 1 = 2 * k + 1 + 1 + 1 := by ring
    rw [hrep, List.replicate_succ, List.replicate_succ]
    have h1 : (scanStep s '\\').escapeNext = true := by
      rw [scanStep_escapeNext, h]
      simp
    have h2 : (scanStep (scanStep s '\\') '\\').escapeNext = false := by
      rw [scanStep_escapeNext, h1]
      simp
    have h3 : (scanStep (scanStep s '\\') '\\').inString = s.inString := by
      rw [scanStep_inString_id _ '\\' (Or.inl h1),
        scanStep_inString_id s '\\' (Or.inr (by decide))]
    calc (scanChars (('\\' :: '\\' :: List.replicate (2 * k + 1) '\\') ++ ['"']) s).inString
        = (scanChars (List.replicate (2 * k + 1) '\\' ++ ['"'])
            (scanStep (scanStep s '\\') '\\')).inString := by
          simp only [scanChars, List.cons_append, List.foldl_cons]
      _ = (scanStep (scanStep s '\\') '\\').inString := ih _ h2
      _ = s.inString := h3

/-- Claim C9: the unclosed-string scanner reports a finding exactly when the
open/escaped double-quote state is still open at end of file — equivalently,
when the number of delimiter quotes (quotes preceded by an even backslash
run) is odd — and in that case the reported line and column are the position
of the last delimiter quote, where the unterminated string began; when the
state is closed at end of file it reports nothing. -/
theorem claim_c9_scanner_reports_open_state (l : List Char) :
    (find_unclosed_string l = none ↔ Even (activeCount l)) ∧
    (∀ pr : Nat × Nat, find_unclosed_string l = some pr →
      Odd (activeCount l) ∧ ∃ i, lastActive l = some i ∧
        pr = (lineOfIdx l i, colOfIdx l i)) := by
  obtain ⟨hesc, hins, hline, hcol, hstart⟩ := scanInv_full l
  have hfu : find_unclosed_string l =
      (if (scanChars l scanInit).inString then
        some ((scanChars l scanInit).startLine, (scanChars l scanInit).startCol) else none) := rfl
  rw [hfu]
  rcases Nat.mod_two_eq_zero_or_one (activeCount l) with hc | hc
  · have hv : (scanChars l scanInit).inString = false := by rw [hins, hc]; rfl
    rw [hv]
    constructor
    · simp [Nat.even_iff, hc]
    · intro pr hpr
      exact absurd hpr (by simp)
  · have hv : (scanChars l scanInit).inString = true := by rw [hins, hc]; rfl
    rw [hv, if_pos rfl]
    constructor
    · simp [Nat.even_iff, hc]
    · intro pr hpr
      obtain ⟨i, hi, hl2, hc2⟩ := hstart hv
      refine ⟨Nat.odd_iff.mpr hc, i, hi, ?_⟩
      rw [← Option.some.inj hpr, hl2, hc2]

/-- Witness for claim C9 at a concrete file content with an unterminated
string: the report points at the opening quote. -/
theorem claim_c9_witness :
    Odd (activeCount ['"', 'a']) ∧ ∃ i, lastActive ['"', 'a'] = some i ∧
      ((1, 1) : Nat × Nat) = (lineOfIdx ['"', 'a'] i, colOfIdx ['"', 'a'] i) :=
  (claim_c9_scanner_reports_open_state ['"', 'a']).2 (1, 1) (by decide)

/-- Claim C10: a backslash sets the escape flag regardless of the in-string
state, so a double quote preceded by an odd run of backslashes never acts as
a string delimiter — from any state with the escape flag clear, consuming
the run and the quote leaves the in-string state unchanged — and in
particular a file containing only a backslash-escaped quote reports no
unclosed string. -/
theorem claim_c10_escaped_quote_never_delimiter (n : Nat) (s : ScanState)
    (h1 : Odd n) (h2 : s.escapeNext = false) :
    (scanChars (List.replicate n '\\' ++ ['"']) s).inString = s.inString ∧
    find_unclosed_string ['\\', '"'] = none := by
  obtain ⟨k, hk⟩ := h1
  subst hk
  exact ⟨scan_odd_backslashes_quote k s h2, by decide⟩

/-- Witness for claim C10 at the one-backslash run and the initial state. -/
theorem claim_c10_witness :
    (scanChars (List.replicate 1 '\\' ++ ['"']) scanInit).inString = scanInit.inString ∧
    find_unclosed_string ['\\', '"'] = none :=
  claim_c10_escaped_quote_never_delimiter 1 scanInit ⟨0, by omega⟩ rfl

section RoundTrip

/-- Folding the digit accumulator from an arbitrary seed. -/
theorem digitsToNat_from : ∀ (l : List Char) (a : Nat),
    l.foldl (fun a c => 10 * a + (c.toNat - 48)) a = a * 10 ^ l.length + digitsToNat l := by
  intro l
  induction l with
  | nil => intro a; simp [digitsToNat]
  | cons c cs ih =>
    intro a
    show List.foldl _ (10 * a + (c.toNat - 48)) cs = _
    rw [ih]
    unfold digitsToNat
    show _ = a * 10 ^ (cs.length + 1) + List.foldl _ ((10 * 0 + (c.toNat - 48))) cs
    rw [ih (10 * 0 + (c.toNat - 48))]
    have hd : List.foldl (fun a c => 10 * a + (c.toNat - 48)) 0 cs = digitsToNat cs := rfl
    rw [hd]
    ring

/-- Digit value of a concatenation. -/
theorem digitsToNat_append (l1 l2 : List Char) :
    digitsToNat (l1 ++ l2) = digitsToNat l1 * 10 ^ l2.length + digitsToNat l2 := by
  unfold digitsToNat
  rw [List.foldl_append]
  exact digitsToNat_from l2 _

/-- Leading zeros do not change the digit value. -/
theorem digitsToNat_replicate_zero (j : Nat) (l : List Char) :
    digitsToNat (List.replicate j '0' ++ l) = digitsToNat l := by
  rw [digitsToNat_append]
  have h0 : digitsToNat (List.replicate j '0') = 0 := by
    induction j with
    | zero => rfl
    | succ i ih =>
      rw [List.replicate_succ]
      unfold digitsToNat at ih ⊢
      show List.foldl _ (10 * 0 + ('0'.toNat - 48)) _ = 0
      simpa using ih
  rw [h0]
  simp

theorem digitChar_isDigit : ∀ d, d < 10 → (digitChar d).isDigit = true := by decide

theorem digitChar_toNat : ∀ d, d < 10 → (digitChar d).toNat = 48 + d := by decide

theorem natReprAux_digits : ∀ (fuel n : Nat), ∀ c ∈ natReprAux fuel n, c.isDigit = true := by
  intro fuel
  induction fuel with
  | zero => intro n c hc; simp [natReprAux] at hc
  | succ f ih =>
    intro n c hc
    unfold natReprAux at hc
    by_cases hn : n = 0
    · simp [hn] at hc
    · rw [if_neg hn] at hc
      rcases List.mem_append.mp hc with h | h
      · exact ih _ c h
      · have : c = digitChar (n % 10) := by simpa using h
        rw [this]
        exact digitChar_isDigit _ (Nat.mod_lt _ (by omega))

theorem natReprAux_val : ∀ (fuel n : Nat), n ≤ fuel → digitsToNat (natReprAux fuel n) = n := by
  intro fuel
  induction fuel with
  | zero =>
    intro n hn
    have : n = 0 := by omega
    simp [natReprAux, this, digitsToNat]
  | succ f ih =>
    intro n hn
    unfold natReprAux
    by_cases hn0 : n = 0
    · simp [hn0, digitsToNat]
    · rw [if_neg hn0, digitsToNat_append]
      have hdiv : n / 10 ≤ f := by
        have := Nat.div_lt_self (by omega : 0 < n) (by omega : 1 < 10)
        omega
      rw [ih _ hdiv]
      have hd : digitsToNat [digitChar (n % 10)] = n % 10 := by
        unfold digitsToNat
        show 10 * 0 + ((digitChar (n % 10)).toNat - 48) = n % 10
        rw [digitChar_toNat _ (Nat.mod_lt _ (by omega))]
        omega
      rw [hd]
      simp only [List.length_singleton, pow_one]
      omega

theorem natRepr_digits (n : Nat) : ∀ c ∈ natRepr n, c.isDigit = true := by
  unfold natRepr
  by_cases hn : n = 0
  · intro c hc; rw [if_pos hn] at hc; simp at hc; rw [hc]; decide
  · intro c hc; rw [if_neg hn] at hc; exact natReprAux_digits n n c hc

theorem natRepr_val (n : Nat) : digitsToNat (natRepr n) = n := by
  unfold natRepr
  by_cases hn : n = 0
  · rw [if_pos hn, hn]; decide
  · rw [if_neg hn]; exact natReprAux_val n n le_rfl

theorem natRepr_ne_nil (n : Nat) : natRepr n ≠ [] := by
  unfold natRepr
  by_cases hn : n = 0
  · simp [hn]
  · rw [if_neg hn]
    obtain ⟨f, hf⟩ : ∃ f, n = f + 1 := ⟨n - 1, by omega⟩
    rw [hf]
    unfold natReprAux
    rw [if_neg (by omega)]
    simp

/-- `takeWhile`/`dropWhile` on a digit block followed by a non-digit. -/
theorem takeWhile_digit_prefix : ∀ (ds rest : List Char),
    (∀ c ∈ ds, c.isDigit = true) → (∀ c, rest.head? = some c → c.isDigit = false) →
    (ds ++ rest).takeWhile Char.isDigit = ds ∧ (ds ++ rest).dropWhile Char.isDigit = rest := by
  intro ds
  induction ds with
  | nil =>
    intro rest _ h2
    cases rest with
    | nil => simp
    | cons c r =>
      have := h2 c rfl
      simp [List.takeWhile_cons, List.dropWhile_cons, this]
  | cons d ds ih =>
    intro rest h1 h2
    have hd : d.isDigit = true := h1 d (by simp)
    obtain ⟨ht, hdr⟩ := ih rest (fun c hc => h1 c (by simp [hc])) h2
    simp [List.takeWhile_cons, List.dropWhile_cons, hd, ht, hdr]

theorem skipWs_cons_of_ws (c : Char) (l : List Char) (h : isJsonWs c = true) :
    skipWs (c :: l) = skipWs l := by
  simp [skipWs, List.dropWhile_cons, h]

theorem skipWs_cons_of_not (c : Char) (l : List Char) (h : isJsonWs c = false) :
    skipWs (c :: l) = c :: l := by
  simp [skipWs, List.dropWhile_cons, h]

theorem natRepr_head_digit (n : Nat) :
    ∃ d t, natRepr n = d :: t ∧ d.isDigit = true := by
  cases hr : natRepr n with
  | nil => exact absurd hr (natRepr_ne_nil n)
  | cons d t =>
    refine ⟨d, t, rfl, ?_⟩
    have := natRepr_digits n d (by rw [hr]; simp)
    exact this

theorem isEmpty_false_of_ne_nil {l : List Char} (h : l ≠ []) : l.isEmpty = false := by
  cases l with
  | nil => exact absurd rfl h
  | cons a as => rfl

/-- `parseNumber` recovers a natural number written by `natRepr`. -/
theorem parseNumber_nat (n : Nat) (rest : List Char)
    (hrest : ∀ c, rest.head? = some c → c.isDigit = false ∧ c ≠ '.') :
    parseNumber (natRepr n ++ rest) = some (.int (n : Int), rest) := by
  obtain ⟨d, t, hdt, hdig⟩ := natRepr_head_digit n
  have hdm : d ≠ '-' := by
    intro h
    rw [h] at hdig
    exact absurd hdig (by decide)
  have h1 : (natRepr n ++ rest).head? = some d := by rw [hdt]; rfl
  have hneg : ((natRepr n ++ rest).head? == some '-') = false := by
    rw [h1]
    exact beq_eq_false_iff_ne.mpr (by simp [hdm])
  obtain ⟨htake, hdrop⟩ :=
    takeWhile_digit_prefix (natRepr n) rest (natRepr_digits n) (fun c hc => (hrest c hc).1)
  have hne : (natRepr n).isEmpty = false := isEmpty_false_of_ne_nil (natRepr_ne_nil n)
  have hdot : (rest.head? == some '.') = false := by
    cases hr : rest with
    | nil => rfl
    | cons c r =>
      have := (hrest c (by rw [hr]; rfl)).2
      exact beq_eq_false_iff_ne.mpr (by simp [this])
  unfold parseNumber
  simp only [hneg, Bool.false_eq_true, if_false, htake, hdrop, hne, hdot, natRepr_val]

/-- `parseNumber` recovers an integer written by `intRepr`. -/
theorem parseNumber_int (n : Int) (rest : List Char)
    (hrest : ∀ c, rest.head? = some c → c.isDigit = false ∧ c ≠ '.') :
    parseNumber (intRepr n ++ rest) = some (.int n, rest) := by
  by_cases hn : n < 0
  · obtain ⟨d, t, hdt, hdig⟩ := natRepr_head_digit (-n).toNat
    have hl : intRepr n ++ rest = '-' :: (natRepr (-n).toNat ++ rest) := by
      unfold intRepr
      rw [if_pos hn]
      simp
    rw [hl]
    have hneg : (('-' :: (natRepr (-n).toNat ++ rest)).head? == some '-') = true := by rfl
    obtain ⟨htake, hdrop⟩ :=
      takeWhile_digit_prefix (natRepr (-n).toNat) rest (natRepr_digits _)
        (fun c hc => (hrest c hc).1)
    have hne : (natRepr (-n).toNat).isEmpty = false := isEmpty_false_of_ne_nil (natRepr_ne_nil _)
    have hdot : (rest.head? == some '.') = false := by
      cases hr : rest with
      | nil => rfl
      | cons c r =>
        have := (hrest c (by rw [hr]; rfl)).2
        exact beq_eq_false_iff_ne.mpr (by simp [this])
    unfold parseNumber
    simp only [hneg, if_true, List.tail_cons, htake, hdrop, hne, hdot, natRepr_val]
    have : -((((-n).toNat : Nat) : Int)) = n := by omega
    rw [this]
    simp
  · have hl : intRepr n = natRepr n.toNat := by unfold intRepr; rw [if_neg hn]
    rw [hl, parseNumber_nat _ _ hrest]
    have : ((n.toNat : Nat) : Int) = n := by omega
    rw [this]

theorem findK_some {d : Nat} (hd : 10 ^ d % d = 0) :
    ∃ k, findK d = some k ∧ 10 ^ k % d = 0 := by
  have hmem : d ∈ List.range (d + 1) := by simp
  have hp : (fun k => 10 ^ k % d == 0) d = true := by simp [hd]
  have hs : ((List.range (d + 1)).find? (fun k => 10 ^ k % d == 0)).isSome := by
    rw [List.find?_isSome]
    exact ⟨d, hmem, hp⟩
  obtain ⟨k, hk⟩ := Option.isSome_iff_exists.mp hs
  exact ⟨k, hk, by simpa using List.find?_some hk⟩

/-- `parseNumber` recovers a rational written by `ratRepr`, provided the
denominator divides a power of ten. -/
theorem ratRepr_parse (q : Rat) (rest : List Char)
    (hq : 10 ^ q.den % q.den = 0)
    (hrest : ∀ c, rest.head? = some c → c.isDigit = false ∧ c ≠ '.') :
    parseNumber (ratRepr q ++ rest) = some (.float (.finite q), rest) := by
  obtain ⟨k, hk, hkd⟩ := findK_some hq
  have hd0 : q.den ≠ 0 := q.den_nz
  have hdvd : q.den ∣ 10 ^ k := Nat.dvd_of_mod_eq_zero hkd
  set n : Nat := q.num.natAbs with hn
  set d : Nat := q.den with hdd
  set v : Nat := n * 10 ^ k / d with hv
  have hvd : v * d = n * 10 ^ k := Nat.div_mul_cancel (Dvd.dvd.mul_left hdvd n)
  set ds0 : List Char := natRepr v with hds0
  set ds : List Char :=
    if k + 1 ≤ ds0.length then ds0 else List.replicate (k + 1 - ds0.length) '0' ++ ds0 with hds
  have hdsdig : ∀ c ∈ ds, c.isDigit = true := by
    intro c hc
    rw [hds] at hc
    by_cases hlen : k + 1 ≤ ds0.length
    · rw [if_pos hlen] at hc; exact natRepr_digits v c hc
    · rw [if_neg hlen] at hc
      rcases List.mem_append.mp hc with h | h
      · have := List.eq_of_mem_replicate h
        rw [this]; decide
      · exact natRepr_digits v c h
  have hdsval : digitsToNat ds = v := by
    rw [hds]
    by_cases hlen : k + 1 ≤ ds0.length
    · rw [if_pos hlen]; exact natRepr_val v
    · rw [if_neg hlen, digitsToNat_replicate_zero]; exact natRepr_val v
  have hdslen : k + 1 ≤ ds.length := by
    rw [hds]
    by_cases hlen : k + 1 ≤ ds0.length
    · rw [if_pos hlen]; exact hlen
    · rw [if_neg hlen, List.length_append, List.length_replicate]
      have h1 : 1 ≤ ds0.length := by
        have := natRepr_ne_nil v
        rw [← hds0] at this
        cases h2 : ds0 with
        | nil => exact absurd h2 this
        | cons a l => simp
      omega
  set ip : List Char := ds.take (ds.length - k) with hip
  set fp : List Char := ds.drop (ds.length - k) with hfp
  have hiplen : ip.length = ds.length - k := by
    rw [hip, List.length_take]; omega
  have hfplen : fp.length = k := by
    rw [hfp, List.length_drop]; omega
  have hipfp : ip ++ fp = ds := List.take_append_drop _ _
  have hipdig : ∀ c ∈ ip, c.isDigit = true := fun c hc =>
    hdsdig c (by rw [← hipfp]; exact List.mem_append.mpr (Or.inl hc))
  have hfpdig : ∀ c ∈ fp, c.isDigit = true := fun c hc =>
    hdsdig c (by rw [← hipfp]; exact List.mem_append.mpr (Or.inr hc))
  have hipne : ip ≠ [] := by
    intro h
    have := hiplen
    rw [h] at this
    simp at this
    omega
  set FS : List Char := if k = 0 then ['0'] else fp with hFS
  have hFSdig : ∀ c ∈ FS, c.isDigit = true := by
    intro c hc
    rw [hFS] at hc
    by_cases hk0 : k = 0
    · rw [if_pos hk0] at hc; simp at hc; rw [hc]; decide
    · rw [if_neg hk0] at hc; exact hfpdig c hc
  have hFSne : FS ≠ [] := by
    rw [hFS]
    by_cases hk0 : k = 0
    · rw [if_pos hk0]; simp
    · rw [if_neg hk0]
      intro h
      rw [h] at hfplen
      simp at hfplen
      omega
  have hprinted : ratRepr q =
      (if q < 0 then ['-'] else []) ++ (ip ++ '.' :: FS) := by
    unfold ratRepr
    rw [hk]
    simp only [← hds0, ← hn, ← hdd, ← hv, ← hds, ← hip, ← hfp, ← hFS]
    simp [List.append_assoc]
  -- the parsed mantissa equals n / d as a rational
  have hmant : mkRat ((digitsToNat ip : Int) * 10 ^ FS.length + (digitsToNat FS : Int))
      (10 ^ FS.length) = (n : Rat) / (d : Rat) := by
    by_cases hk0 : k = 0
    · have hip2 : ip = ds := by rw [hip, hk0]; simp
      have hd1 : d = 1 := Nat.dvd_one.mp (by rw [← pow_zero 10, ← hk0]; exact hdvd)
      have hv2 : v = n := by rw [hv, hk0, hd1]; simp
      have hFS2 : FS = ['0'] := by rw [hFS, if_pos hk0]
      rw [hFS2]
      have hdsv : digitsToNat ip = n := by rw [hip2, hdsval, hv2]
      rw [hdsv]
      have h0 : digitsToNat ['0'] = 0 := by decide
      rw [h0]
      rw [Rat.mkRat_eq_div, hd1]
      push_cast
      norm_num
    · have hFS2 : FS = fp := by rw [hFS, if_neg hk0]
      have hsplit : digitsToNat ip * 10 ^ fp.length + digitsToNat fp = v := by
        rw [← digitsToNat_append, hipfp, hdsval]
      have hsplitI : (digitsToNat ip : Int) * 10 ^ fp.length + (digitsToNat fp : Int) =
          (v : Int) := by exact_mod_cast hsplit
      rw [hFS2, hsplitI, Rat.mkRat_eq_div, hfplen]
      have hcast : ((v : Int) : Rat) * ((d : Nat) : Rat) = ((n : Nat) : Rat) * ((10 ^ k : Nat) : Rat) := by
        have := hvd
        push_cast
        exact_mod_cast congrArg (fun x : Nat => (x : Rat)) hvd
      have h10 : ((10 ^ k : Nat) : Rat) ≠ 0 := by positivity
      have hdq : ((d : Nat) : Rat) ≠ 0 := by
        simpa using Nat.cast_ne_zero.mpr hd0
      field_simp
      push_cast at hcast ⊢
      linarith [hcast]
  -- dispatch on the sign
  by_cases hqs : q < 0
  · have hsign : ratRepr q ++ rest = '-' :: (ip ++ ('.' :: (FS ++ rest))) := by
      rw [hprinted, if_pos hqs]
      simp [List.append_assoc]
    rw [hsign]
    have hneg : (('-' :: (ip ++ ('.' :: (FS ++ rest)))).head? == some '-') = true := by rfl
    obtain ⟨htake, hdrop⟩ := takeWhile_digit_prefix ip ('.' :: (FS ++ rest)) hipdig
      (fun c hc => by cases hc; decide)
    have hne : ip.isEmpty = false := isEmpty_false_of_ne_nil hipne
    have hdot : ((('.' :: (FS ++ rest)).head?) == some '.') = true := by rfl
    obtain ⟨htake2, hdrop2⟩ := takeWhile_digit_prefix FS rest hFSdig
      (fun c hc => (hrest c hc).1)
    have hne2 : FS.isEmpty = false := isEmpty_false_of_ne_nil hFSne
    unfold parseNumber
    simp only [hneg, if_true, List.tail_cons, htake, hdrop, hne, Bool.false_eq_true,
      if_false, hdot, htake2, hdrop2, hne2]
    have hfinal : -(mkRat ((digitsToNat ip : Int) * 10 ^ FS.length + (digitsToNat FS : Int))
        (10 ^ FS.length)) = q := by
      rw [hmant]
      have hnum : (n : Int) = -q.num := by
        rw [hn]
        have : q.num < 0 := Rat.num_neg.mpr hqs
        omega
      have : (n : Rat) = -(q.num : Rat) := by
        rw [show ((n : Nat) : Rat) = (((n : Nat) : Int) : Rat) by push_cast; ring, hnum]
        push_cast
        ring
      rw [this, hdd]
      rw [neg_div, neg_neg]
      exact Rat.num_div_den q
    rw [hfinal]
  · have hsign : ratRepr q ++ rest = ip ++ ('.' :: (FS ++ rest)) := by
      rw [hprinted, if_neg hqs]
      simp [List.append_assoc]
    rw [hsign]
    obtain ⟨dch, t, hdt⟩ : ∃ dch t, ip = dch :: t := by
      cases h2 : ip with
      | nil => exact absurd h2 hipne
      | cons a l => exact ⟨a, l, rfl⟩
    have hdchdig : dch.isDigit = true := hipdig dch (by rw [hdt]; simp)
    have hneg : ((ip ++ ('.' :: (FS ++ rest))).head? == some '-') = false := by
      rw [hdt]
      have : dch ≠ '-' := by
        intro h
        rw [h] at hdchdig
        exact absurd hdchdig (by decide)
      exact beq_eq_false_iff_ne.mpr (by simp [this])
    obtain ⟨htake, hdrop⟩ := takeWhile_digit_prefix ip ('.' :: (FS ++ rest)) hipdig
      (fun c hc => by cases hc; decide)
    have hne : ip.isEmpty = false := isEmpty_false_of_ne_nil hipne
    have hdot : ((('.' :: (FS ++ rest)).head?) == some '.') = true := by rfl
    obtain ⟨htake2, hdrop2⟩ := takeWhile_digit_prefix FS rest hFSdig
      (fun c hc => (hrest c hc).1)
    have hne2 : FS.isEmpty = false := isEmpty_false_of_ne_nil hFSne
    unfold parseNumber
    simp only [hneg, Bool.false_eq_true, if_false, htake, hdrop, hne, hdot, if_true,
      List.tail_cons, htake2, hdrop2, hne2]
    have hfinal : mkRat ((digitsToNat ip : Int) * 10 ^ FS.length + (digitsToNat FS : Int))
        (10 ^ FS.length) = q := by
      rw [hmant]
      have hnum : (n : Int) = q.num := by
        rw [hn]
        have : 0 ≤ q.num := Rat.num_nonneg.mpr (not_lt.mp hqs)
        omega
      have : (n : Rat) = (q.num : Rat) := by
        rw [show ((n : Nat) : Rat) = (((n : Nat) : Int) : Rat) by push_cast; ring, hnum]
      rw [this, hdd]
      exact Rat.num_div_den q
    rw [hfinal]

theorem hexVal_hexDigit : ∀ d, d < 16 → hexVal (hexDigit d) = d := by decide

theorem string_mk_data (s : String) : String.mk s.data = s := by cases s; rfl

/-- Decoding inverts JSON string escaping: parsing the escaped body up to
the closing quote returns the original characters. -/
theorem escList_parse : ∀ (s rest : List Char),
    parseStringBody (escList s ++ ('"' :: rest)) = some (s, rest) := by
  intro s
  induction s with
  | nil =>
    intro rest
    show parseStringBody ([] ++ '"' :: rest) = _
    rw [List.nil_append, parseStringBody.eq_def]
    dsimp only
    rw [if_pos rfl]
  | cons c cs ih =>
    intro rest
    show parseStringBody ((escChar c ++ escList cs) ++ ('"' :: rest)) = _
    rw [List.append_assoc]
    unfold escChar
    by_cases h1 : c = '"'
    · simp [h1, parseStringBody, escDecode, ih]
    · by_cases h2 : c = '\\'
      · simp [h1, h2, parseStringBody, escDecode, ih]
      · by_cases h3 : c = '\n'
        · simp [h1, h2, h3, parseStringBody, escDecode, ih]
        · by_cases h4 : c = '\t'
          · simp [h1, h2, h3, h4, parseStringBody, escDecode, ih]
          · by_cases h5 : c = '\r'
            · simp [h1, h2, h3, h4, h5, parseStringBody, escDecode, ih]
            · by_cases h6 : c = '\x08'
              · simp [h1, h2, h3, h4, h5, h6, parseStringBody, escDecode, ih]
              · by_cases h7 : c = '\x0c'
                · simp [h1, h2, h3, h4, h5, h6, h7, parseStringBody, escDecode, ih]
                · by_cases h8 : c.toNat < 32
                  · simp only [h1, h2, h3, h4, h5, h6, h7, if_false, h8, if_true,
                      List.cons_append, List.nil_append]
                    have hred : parseStringBody ('\\' :: 'u' :: '0' :: '0' ::
                        hexDigit (c.toNat / 16) :: hexDigit (c.toNat % 16) ::
                        (escList cs ++ '"' :: rest)) =
                        (parseStringBody (escList cs ++ '"' :: rest)).map (fun p =>
                          (Char.ofNat (((hexVal '0' * 16 + hexVal '0') * 16 +
                            hexVal (hexDigit (c.toNat / 16))) * 16 +
                            hexVal (hexDigit (c.toNat % 16))) :: p.1, p.2)) := rfl
                    have hv1 : hexVal (hexDigit (c.toNat / 16)) = c.toNat / 16 :=
                      hexVal_hexDigit _ (by omega)
                    have hv2 : hexVal (hexDigit (c.toNat % 16)) = c.toNat % 16 :=
                      hexVal_hexDigit _ (by omega)
                    have hv0 : hexVal '0' = 0 := by decide
                    rw [hred, ih]
                    simp only [hv0, hv1, hv2, Option.map_some]
                    have harith : ((0 * 16 + 0) * 16 + c.toNat / 16) * 16 + c.toNat % 16 =
                        c.toNat := by omega
                    rw [harith, Char.ofNat_toNat]
                    rfl
                  · simp only [h1, h2, h3, h4, h5, h6, h7, h8, if_false,
                      List.cons_append, List.nil_append]
                    rw [parseStringBody.eq_def]
                    dsimp only
                    rw [if_neg h1, if_neg h2]
                    simp [ih]

theorem take_ne_of_head {c : Char} {t : List Char} {d : Char} {kt : List Char} (hcd : c ≠ d) :
    ∀ k, (c :: t).take k ≠ d :: kt := by
  intro k h
  cases k with
  | zero => simp at h
  | succ j =>
    rw [List.take_succ_cons] at h
    injection h with h1 _
    exact hcd h1

theorem take_ne_of_second {c e : Char} {t : List Char} {d : Char} {kt : List Char}
    (hcd : e ≠ d) : ∀ k, (c :: e :: t).take k ≠ c :: d :: kt := by
  intro k h
  cases k with
  | zero => simp at h
  | succ j =>
    rw [List.take_succ_cons] at h
    injection h with _ h2
    cases j with
    | zero => simp at h2
    | succ i =>
      rw [List.take_succ_cons] at h2
      injection h2 with h3 _
      exact hcd h3

theorem digit_not_letter {c : Char} (h : c.isDigit = true) :
    c ≠ 'n' ∧ c ≠ 't' ∧ c ≠ 'f' ∧ c ≠ 'N' ∧ c ≠ 'I' ∧ c ≠ '-' ∧ c ≠ '"' := by
  refine ⟨?_, ?_, ?_, ?_, ?_, ?_, ?_⟩ <;>
    (intro heq; subst heq; exact absurd h (by decide))

/-- On input whose first character is a digit, or a minus followed by a
digit, `parseScalar` falls through to `parseNumber`. -/
theorem parseScalar_eq_parseNumber (l : List Char) (c0 : Char) (l2 : List Char)
    (hl : l = c0 :: l2)
    (hc : c0.isDigit = true ∨ (c0 = '-' ∧ ∃ c1 l3, l2 = c1 :: l3 ∧ c1.isDigit = true)) :
    parseScalar l = parseNumber l := by
  subst hl
  unfold parseScalar
  rcases hc with hd | ⟨hm, c1, l3, hl2, hd1⟩
  · obtain ⟨k1, k2, k3, k4, k5, k6, k7⟩ := digit_not_letter hd
    rw [if_neg (take_ne_of_head k1 4), if_neg (take_ne_of_head k2 4),
      if_neg (take_ne_of_head k3 5), if_neg (take_ne_of_head k4 3),
      if_neg (take_ne_of_head k5 8), if_neg (take_ne_of_head k6 9)]
    dsimp only
    rw [if_neg k7]
  · subst hm
    subst hl2
    have hni : c1 ≠ 'I' := by
      intro h
      rw [h] at hd1
      exact absurd hd1 (by decide)
    rw [if_neg (take_ne_of_head (by decide) 4), if_neg (take_ne_of_head (by decide) 4),
      if_neg (take_ne_of_head (by decide) 5), if_neg (take_ne_of_head (by decide) 3),
      if_neg (take_ne_of_head (by decide) 8), if_neg (take_ne_of_second hni 9)]
    dsimp only
    rw [if_neg (by decide : ¬('-' : Char) = '"')]

/-- `parseScalar` recovers a string literal written by `strRepr`. -/
theorem parseScalar_str (s : String) (rest : List Char) :
    parseScalar (strRepr s ++ rest) = some (.str s, rest) := by
  have hshape : strRepr s ++ rest = '"' :: (escList s.data ++ ('"' :: rest)) := by
    unfold strRepr
    simp [List.append_assoc]
  rw [hshape]
  unfold parseScalar
  rw [if_neg (take_ne_of_head (by decide) 4), if_neg (take_ne_of_head (by decide) 4),
    if_neg (take_ne_of_head (by decide) 5), if_neg (take_ne_of_head (by decide) 3),
    if_neg (take_ne_of_head (by decide) 8), if_neg (take_ne_of_head (by decide) 9)]
  dsimp only
  rw [if_pos rfl, escList_parse]
  simp [string_mk_data]

/-- The first characters of `ratRepr`: a digit, or a minus then a digit. -/
theorem ratRepr_shape (q : Rat) :
    (∃ dch t, ratRepr q = dch :: t ∧ dch.isDigit = true) ∨
    (∃ dch t, ratRepr q = '-' :: dch :: t ∧ dch.isDigit = true) := by
  unfold ratRepr
  cases hk : findK q.den with
  | none => exact Or.inl ⟨'0', ['.', '0'], rfl, by decide⟩
  | some k =>
    dsimp only
    set ds0 : List Char := natRepr (q.num.natAbs * 10 ^ k / q.den) with hds0
    set ds : List Char :=
      if k + 1 ≤ ds0.length then ds0 else List.replicate (k + 1 - ds0.length) '0' ++ ds0
      with hds
    have hdsdig : ∀ c ∈ ds, c.isDigit = true := by
      intro c hc
      rw [hds] at hc
      by_cases hlen : k + 1 ≤ ds0.length
      · rw [if_pos hlen] at hc; exact natRepr_digits _ c hc
      · rw [if_neg hlen] at hc
        rcases List.mem_append.mp hc with h | h
        · rw [List.eq_of_mem_replicate h]; decide
        · exact natRepr_digits _ c h
    have hdslen : k + 1 ≤ ds.length := by
      rw [hds]
      by_cases hlen : k + 1 ≤ ds0.length
      · rw [if_pos hlen]; exact hlen
      · rw [if_neg hlen, List.length_append, List.length_replicate]
        have h1 : 1 ≤ ds0.length := by
          have := natRepr_ne_nil (q.num.natAbs * 10 ^ k / q.den)
          rw [← hds0] at this
          cases h2 : ds0 with
          | nil => exact absurd h2 this
          | cons a l => simp
        omega
    obtain ⟨d0, t0, hds2⟩ : ∃ d0 t0, ds = d0 :: t0 := by
      cases h2 : ds with
      | nil => rw [h2] at hdslen; simp at hdslen
      | cons a l => exact ⟨a, l, rfl⟩
    have hd0 : d0.isDigit = true := hdsdig d0 (by rw [hds2]; simp)
    obtain ⟨j, hj⟩ : ∃ j, ds.length - k = j + 1 := ⟨ds.length - k - 1, by omega⟩
    have htk : ds.take (ds.length - k) = d0 :: t0.take j := by
      rw [hj, hds2, List.take_succ_cons]
    by_cases hqs : q < 0
    · refine Or.inr ⟨d0, t0.take j ++ '.' :: (if k = 0 then ['0'] else ds.drop (ds.length - k)), ?_, hd0⟩
      rw [if_pos hqs, htk]
      simp
    · refine Or.inl ⟨d0, t0.take j ++ '.' :: (if k = 0 then ['0'] else ds.drop (ds.length - k)), ?_, hd0⟩
      rw [if_neg hqs, htk]
      simp

/-- The first characters of `intRepr`: a digit, or a minus then a digit. -/
theorem intRepr_shape (n : Int) :
    (∃ dch t, intRepr n = dch :: t ∧ dch.isDigit = true) ∨
    (∃ dch t, intRepr n = '-' :: dch :: t ∧ dch.isDigit = true) := by
  unfold intRepr
  by_cases hn : n < 0
  · obtain ⟨d, t, hdt, hdig⟩ := natRepr_head_digit (-n).toNat
    exact Or.inr ⟨d, t, by rw [if_pos hn, hdt], hdig⟩
  · obtain ⟨d, t, hdt, hdig⟩ := natRepr_head_digit n.toNat
    exact Or.inl ⟨d, t, by rw [if_neg hn, hdt], hdig⟩

/-- `parseScalar` recovers every scalar value the writer emits, provided
what follows does not begin with a digit or a dot, and every finite float
has a denominator dividing a power of ten. -/
theorem parseScalar_value (v : JValue) (rest : List Char)
    (hrest : ∀ c, rest.head? = some c → c.isDigit = false ∧ c ≠ '.')
    (hfl : ∀ q : Rat, v = .float (.finite q) → 10 ^ q.den % q.den = 0) :
    parseScalar (valueRepr v ++ rest) = some (v, rest) := by
  cases v with
  | null => rfl
  | bool b => cases b <;> rfl
  | int n =>
    have hdisp : parseScalar (intRepr n ++ rest) = parseNumber (intRepr n ++ rest) := by
      rcases intRepr_shape n with ⟨d, t, hdt, hdig⟩ | ⟨d, t, hdt, hdig⟩
      · exact parseScalar_eq_parseNumber _ d (t ++ rest) (by rw [hdt]; simp) (Or.inl hdig)
      · exact parseScalar_eq_parseNumber _ '-' (d :: t ++ rest) (by rw [hdt]; simp)
          (Or.inr ⟨rfl, d, t ++ rest, by simp, hdig⟩)
    rw [show valueRepr (JValue.int n) = intRepr n from rfl, hdisp,
      parseNumber_int n rest hrest]
  | float f =>
    cases f with
    | finite q =>
      have hq := hfl q rfl
      have hdisp : parseScalar (ratRepr q ++ rest) = parseNumber (ratRepr q ++ rest) := by
        rcases ratRepr_shape q with ⟨d, t, hdt, hdig⟩ | ⟨d, t, hdt, hdig⟩
        · exact parseScalar_eq_parseNumber _ d (t ++ rest) (by rw [hdt]; simp) (Or.inl hdig)
        · exact parseScalar_eq_parseNumber _ '-' (d :: t ++ rest) (by rw [hdt]; simp)
            (Or.inr ⟨rfl, d, t ++ rest, by simp, hdig⟩)
      rw [show valueRepr (JValue.float (PyFloat.finite q)) = ratRepr q from rfl, hdisp,
        ratRepr_parse q rest hq hrest]
    | inf => rfl
    | ninf => rfl
    | nan => rfl
  | str s => exact parseScalar_str s rest

theorem digit_not_ws {c : Char} (h : c.isDigit = true) : isJsonWs c = false := by
  have h1 : c ≠ ' ' := by intro he; subst he; exact absurd h (by decide)
  have h2 : c ≠ '\t' := by intro he; subst he; exact absurd h (by decide)
  have h3 : c ≠ '\n' := by intro he; subst he; exact absurd h (by decide)
  have h4 : c ≠ '\r' := by intro he; subst he; exact absurd h (by decide)
  unfold isJsonWs
  rw [beq_eq_false_iff_ne.mpr h1, beq_eq_false_iff_ne.mpr h2, beq_eq_false_iff_ne.mpr h3,
    beq_eq_false_iff_ne.mpr h4]
  rfl

/-- The serialization of a value never begins with whitespace. -/
theorem skipWs_valueRepr (v : JValue) (X : List Char) :
    skipWs (valueRepr v ++ X) = valueRepr v ++ X := by
  cases v with
  | null => rfl
  | bool b => cases b <;> rfl
  | str s => rfl
  | int n =>
    rcases intRepr_shape n with ⟨d, t, hdt, hdig⟩ | ⟨d, t, hdt, hdig⟩
    · show skipWs (intRepr n ++ X) = intRepr n ++ X
      rw [hdt, List.cons_append]
      exact skipWs_cons_of_not _ _ (digit_not_ws hdig)
    · show skipWs (intRepr n ++ X) = intRepr n ++ X
      rw [hdt, List.cons_append]
      exact skipWs_cons_of_not _ _ rfl
  | float f =>
    cases f with
    | inf => rfl
    | ninf => rfl
    | nan => rfl
    | finite q =>
      rcases ratRepr_shape q with ⟨d, t, hdt, hdig⟩ | ⟨d, t, hdt, hdig⟩
      · show skipWs (ratRepr q ++ X) = ratRepr q ++ X
        rw [hdt, List.cons_append]
        exact skipWs_cons_of_not _ _ (digit_not_ws hdig)
      · show skipWs (ratRepr q ++ X) = ratRepr q ++ X
        rw [hdt, List.cons_append]
        exact skipWs_cons_of_not _ _ rfl

theorem memberText_shape (k : String) (v : JValue) (X : List Char) :
    memberText (k, v) ++ X =
      '"' :: (escList k.data ++ ('"' :: (':' :: (' ' :: (valueRepr v ++ X))))) := by
  unfold memberText strRepr
  simp [List.append_assoc]

theorem joinSep_cons_ex (sep x : List Char) (xs : List (List Char)) :
    ∃ Y, joinSep sep (x :: xs) = x ++ Y := by
  cases xs with
  | nil => exact ⟨[], by simp [joinSep]⟩
  | cons y ys => exact ⟨sep ++ joinSep sep (y :: ys), by simp [joinSep, List.append_assoc]⟩

theorem joinSep_factor (I sep : List Char) : ∀ (pieces : List (List Char)), pieces ≠ [] →
    joinSep sep (pieces.map (fun p => I ++ p)) = I ++ joinSep (sep ++ I) pieces := by
  intro pieces
  induction pieces with
  | nil => intro h; exact absurd rfl h
  | cons x xs ih =>
    intro _
    cases xs with
    | nil => simp [joinSep]
    | cons y ys =>
      have ihr := ih (by simp)
      simp only [List.map_cons] at ihr ⊢
      simp [joinSep, ihr, List.append_assoc]

/-- One-step unfolding of `parseMembers` at a key's opening quote. -/
theorem parseMembers_succ (f : Nat) (R : List Char) :
    parseMembers (f + 1) ('"' :: R) =
      (match parseStringBody R with
      | none => none
      | some (k, r1) =>
        match skipWs r1 with
        | ':' :: r2 =>
          match parseScalar (skipWs r2) with
          | none => none
          | some (v, r3) =>
            match skipWs r3 with
            | ',' :: r4 =>
              (parseMembers f (skipWs r4)).map (fun p => ((String.mk k, v) :: p.1, p.2))
            | '}' :: r4 => some ([(String.mk k, v)], r4)
            | _ => none
        | _ => none) := rfl

/-- `parseMembers` recovers the member list the writer emits inside a
non-empty record, consuming through the closing brace. -/
theorem parseMembers_join :
    ∀ (fields : List (String × JValue)) (fuel : Nat) (rest : List Char),
      fields ≠ [] → fields.length ≤ fuel →
      (∀ kv ∈ fields, ∀ q : Rat, kv.2 = JValue.float (PyFloat.finite q) →
        10 ^ q.den % q.den = 0) →
      parseMembers fuel (joinSep (',' :: '\n' :: "    ".data) (fields.map memberText) ++
        ('\n' :: (' ' :: (' ' :: ('}' :: rest))))) = some (fields, rest) := by
  intro fields
  induction fields with
  | nil => intro fuel rest h _ _; exact absurd rfl h
  | cons kv more ih =>
    intro fuel rest _ hfuel hfl
    obtain ⟨f, hf⟩ : ∃ f, fuel = f + 1 :=
      ⟨fuel - 1, by simp only [List.length_cons] at hfuel; omega⟩
    subst hf
    rcases kv with ⟨k, v⟩
    have hflv : ∀ q : Rat, v = JValue.float (PyFloat.finite q) → 10 ^ q.den % q.den = 0 :=
      fun q hq => hfl (k, v) (by simp) q (by simpa using hq)
    cases more with
    | nil =>
      rw [show joinSep (',' :: '\n' :: "    ".data) ([(k, v)].map memberText) =
        memberText (k, v) from rfl]
      rw [memberText_shape, parseMembers_succ, escList_parse]
      have hrestAfter : ∀ c, ('\n' :: (' ' :: (' ' :: ('}' :: rest)))).head? = some c →
          c.isDigit = false ∧ c ≠ '.' := by
        intro c hc
        cases hc
        exact ⟨by decide, by decide⟩
      simp only []
      rw [show skipWs (':' :: (' ' :: (valueRepr v ++ ('\n' :: (' ' :: (' ' :: ('}' :: rest))))))) =
        ':' :: (' ' :: (valueRepr v ++ ('\n' :: (' ' :: (' ' :: ('}' :: rest)))))) from rfl]
      simp only []
      rw [show skipWs (' ' :: (valueRepr v ++ ('\n' :: (' ' :: (' ' :: ('}' :: rest)))))) =
        skipWs (valueRepr v ++ ('\n' :: (' ' :: (' ' :: ('}' :: rest))))) from rfl]
      rw [skipWs_valueRepr, parseScalar_value v _ hrestAfter hflv]
      simp only []
      rw [show skipWs ('\n' :: (' ' :: (' ' :: ('}' :: rest)))) = '}' :: rest from rfl]
      simp only []
    | cons m2 more2 =>
      set sep : List Char := ',' :: '\n' :: "    ".data with hsep
      set close : List Char := '\n' :: (' ' :: (' ' :: ('}' :: rest))) with hclose
      set joinTail : List Char := joinSep sep ((m2 :: more2).map memberText) with hjt
      have hjoin : joinSep sep (((k, v) :: m2 :: more2).map memberText) =
          memberText (k, v) ++ (sep ++ joinTail) := by
        rw [hjt]
        simp [joinSep, List.append_assoc]
      rw [hjoin, List.append_assoc, List.append_assoc]
      rw [memberText_shape, parseMembers_succ, escList_parse]
      have hrestAfter : ∀ c, (sep ++ (joinTail ++ close)).head? = some c →
          c.isDigit = false ∧ c ≠ '.' := by
        intro c hc
        rw [hsep] at hc
        cases hc
        exact ⟨by decide, by decide⟩
      simp only []
      rw [show skipWs (':' :: (' ' :: (valueRepr v ++ (sep ++ (joinTail ++ close))))) =
        ':' :: (' ' :: (valueRepr v ++ (sep ++ (joinTail ++ close)))) from rfl]
      simp only []
      rw [show skipWs (' ' :: (valueRepr v ++ (sep ++ (joinTail ++ close)))) =
        skipWs (valueRepr v ++ (sep ++ (joinTail ++ close))) from rfl]
      rw [skipWs_valueRepr, parseScalar_value v _ hrestAfter hflv]
      simp only []
      rw [show sep ++ (joinTail ++ close) =
        ',' :: ('\n' :: (' ' :: (' ' :: (' ' :: (' ' :: (joinTail ++ close)))))) from rfl]
      rw [show skipWs (',' :: ('\n' :: (' ' :: (' ' :: (' ' :: (' ' :: (joinTail ++ close))))))) =
        ',' :: ('\n' :: (' ' :: (' ' :: (' ' :: (' ' :: (joinTail ++ close)))))) from rfl]
      simp only []
      obtain ⟨Y, hY⟩ := joinSep_cons_ex sep (memberText m2) (more2.map memberText)
      have hjc : joinTail ++ close = memberText m2 ++ (Y ++ close) := by
        rw [hjt, List.map_cons, hY, List.append_assoc]
      have hskip : skipWs ('\n' :: (' ' :: (' ' :: (' ' :: (' ' :: (joinTail ++ close)))))) =
          joinTail ++ close := by
        rw [skipWs_cons_of_ws '\n' _ rfl, skipWs_cons_of_ws ' ' _ rfl,
          skipWs_cons_of_ws ' ' _ rfl, skipWs_cons_of_ws ' ' _ rfl,
          skipWs_cons_of_ws ' ' _ rfl, hjc]
        rcases m2 with ⟨k2, v2⟩
        rw [memberText_shape]
        exact skipWs_cons_of_not _ _ rfl
      rw [hskip]
      have hih := ih f rest (by simp) (by simp only [List.length_cons] at hfuel ⊢; omega)
        (fun kv2 hm q hq => hfl kv2 (by simp [hm]) q hq)
      rw [hjt] at hih ⊢
      rw [hih]
      rw [string_mk_data]
      rfl

/-- One-step unfolding of `parseObject` at an opening brace. -/
theorem parseObject_cons_eq (fuel : Nat) (R : List Char) :
    parseObject fuel ('{' :: R) =
      (match skipWs R with
      | '}' :: r1 => some ([], r1)
      | r1 => parseMembers fuel r1) := rfl

/-- `parseObject` recovers a record written by `recordRepr`. -/
theorem parseObject_repr (r : List (String × JValue)) (fuel : Nat) (after : List Char)
    (hfuel : r.length ≤ fuel)
    (hfl : ∀ kv ∈ r, ∀ q : Rat, kv.2 = JValue.float (PyFloat.finite q) →
      10 ^ q.den % q.den = 0) :
    parseObject fuel (recordRepr r ++ after) = some (r, after) := by
  cases r with
  | nil => rfl
  | cons kv more =>
    have h1 : List.map memberRepr (kv :: more) =
        ((kv :: more).map memberText).map (fun p => "    ".data ++ p) := by
      rw [List.map_map]
      rfl
    rw [show recordRepr (kv :: more) ++ after =
      '{' :: ('\n' :: ((joinSep (',' :: ('\n' :: [])) ((kv :: more).map memberRepr) ++
        ('\n' :: (' ' :: (' ' :: ('}' :: []))))) ++ after)) from rfl]
    rw [h1, joinSep_factor "    ".data (',' :: ('\n' :: [])) ((kv :: more).map memberText)
      (by simp)]
    rw [show ((',' :: ('\n' :: ([] : List Char))) ++ "    ".data) =
      ',' :: ('\n' :: "    ".data) from rfl]
    rw [List.append_assoc, List.append_assoc]
    rw [show (('\n' :: (' ' :: (' ' :: ('}' :: ([] : List Char))))) ++ after) =
      '\n' :: (' ' :: (' ' :: ('}' :: after))) from rfl]
    rw [show (("    ".data : List Char) ++
        (joinSep (',' :: ('\n' :: "    ".data)) ((kv :: more).map memberText) ++
          ('\n' :: (' ' :: (' ' :: ('}' :: after)))))) =
      ' ' :: (' ' :: (' ' :: (' ' ::
        (joinSep (',' :: ('\n' :: "    ".data)) ((kv :: more).map memberText) ++
          ('\n' :: (' ' :: (' ' :: ('}' :: after)))))))) from rfl]
    rw [parseObject_cons_eq]
    obtain ⟨Y, hY⟩ := joinSep_cons_ex (',' :: ('\n' :: "    ".data)) (memberText kv)
      (more.map memberText)
    have hjc : joinSep (',' :: ('\n' :: "    ".data)) ((kv :: more).map memberText) ++
        ('\n' :: (' ' :: (' ' :: ('}' :: after)))) =
        memberText kv ++ (Y ++ ('\n' :: (' ' :: (' ' :: ('}' :: after))))) := by
      rw [List.map_cons, hY, List.append_assoc]
    have hmemshape : ∃ Z, memberText kv ++ (Y ++ ('\n' :: (' ' :: (' ' :: ('}' :: after))))) =
        '"' :: Z := by
      rcases kv with ⟨k2, v2⟩
      exact ⟨_, memberText_shape k2 v2 _⟩
    obtain ⟨Z, hZ⟩ := hmemshape
    have hskip : skipWs ('\n' :: (' ' :: (' ' :: (' ' :: (' ' ::
        (joinSep (',' :: ('\n' :: "    ".data)) ((kv :: more).map memberText) ++
          ('\n' :: (' ' :: (' ' :: ('}' :: after)))))))))) =
        joinSep (',' :: ('\n' :: "    ".data)) ((kv :: more).map memberText) ++
          ('\n' :: (' ' :: (' ' :: ('}' :: after)))) := by
      rw [skipWs_cons_of_ws '\n' _ rfl, skipWs_cons_of_ws ' ' _ rfl,
        skipWs_cons_of_ws ' ' _ rfl, skipWs_cons_of_ws ' ' _ rfl,
        skipWs_cons_of_ws ' ' _ rfl, hjc, hZ]
      exact skipWs_cons_of_not _ _ rfl
    rw [hskip, hjc, hZ]
    show parseMembers fuel ('"' :: Z) = some (kv :: more, after)
    rw [← hZ, ← hjc]
    exact parseMembers_join (kv :: more) fuel after (by simp) hfuel hfl

/-- One-step unfolding of `parseElements`. -/
theorem parseElements_succ (f : Nat) (l : List Char) :
    parseElements (f + 1) l =
      (match parseObject f l with
      | none => none
      | some (ob, r1) =>
        match skipWs r1 with
        | ',' :: r2 => (parseElements f (skipWs r2)).map (fun p => (ob :: p.1, p.2))
        | ']' :: r2 => some ([ob], r2)
        | _ => none) := rfl

/-- `parseElements` recovers the record list the writer emits inside a
non-empty array, consuming through the closing bracket. -/
theorem parseElements_join :
    ∀ (data : List (List (String × JValue))) (fuel : Nat) (rest : List Char),
      data ≠ [] → data.length + (data.map List.length).sum ≤ fuel →
      (∀ r ∈ data, ∀ kv ∈ r, ∀ q : Rat, kv.2 = JValue.float (PyFloat.finite q) →
        10 ^ q.den % q.den = 0) →
      parseElements fuel (joinSep (',' :: ('\n' :: (' ' :: (' ' :: []))))
        (data.map recordRepr) ++ ('\n' :: (']' :: rest))) = some (data, rest) := by
  intro data
  induction data with
  | nil => intro fuel rest h _ _; exact absurd rfl h
  | cons r rs ih =>
    intro fuel rest _ hfuel hfl
    obtain ⟨f, hf⟩ : ∃ f, fuel = f + 1 := ⟨fuel - 1, by
      simp only [List.length_cons] at hfuel
      omega⟩
    subst hf
    have hflr : ∀ kv ∈ r, ∀ q : Rat, kv.2 = JValue.float (PyFloat.finite q) →
        10 ^ q.den % q.den = 0 := hfl r (by simp)
    have hfuelr : r.length ≤ f := by
      simp only [List.length_cons, List.map_cons, List.sum_cons] at hfuel
      omega
    cases rs with
    | nil =>
      rw [show joinSep (',' :: ('\n' :: (' ' :: (' ' :: [])))) ([r].map recordRepr) =
        recordRepr r from rfl]
      rw [parseElements_succ, parseObject_repr r f ('\n' :: (']' :: rest)) hfuelr hflr]
      simp only []
      rw [show skipWs ('\n' :: (']' :: rest)) = ']' :: rest from rfl]
      rfl
    | cons r2 rs2 =>
      have hjoin : joinSep (',' :: ('\n' :: (' ' :: (' ' :: []))))
          ((r :: r2 :: rs2).map recordRepr) =
          recordRepr r ++ ((',' :: ('\n' :: (' ' :: (' ' :: [])))) ++
            joinSep (',' :: ('\n' :: (' ' :: (' ' :: [])))) ((r2 :: rs2).map recordRepr)) := by
        simp [joinSep, List.append_assoc]
      rw [hjoin, List.append_assoc, List.append_assoc]
      rw [parseElements_succ, parseObject_repr r f _ hfuelr hflr]
      simp only []
      rw [show ((',' :: ('\n' :: (' ' :: (' ' :: ([] : List Char))))) ++
        (joinSep (',' :: ('\n' :: (' ' :: (' ' :: [])))) ((r2 :: rs2).map recordRepr) ++
          ('\n' :: (']' :: rest)))) =
        ',' :: ('\n' :: (' ' :: (' ' ::
          (joinSep (',' :: ('\n' :: (' ' :: (' ' :: [])))) ((r2 :: rs2).map recordRepr) ++
            ('\n' :: (']' :: rest)))))) from rfl]
      rw [show skipWs (',' :: ('\n' :: (' ' :: (' ' ::
        (joinSep (',' :: ('\n' :: (' ' :: (' ' :: [])))) ((r2 :: rs2).map recordRepr) ++
          ('\n' :: (']' :: rest))))))) =
        ',' :: ('\n' :: (' ' :: (' ' ::
          (joinSep (',' :: ('\n' :: (' ' :: (' ' :: [])))) ((r2 :: rs2).map recordRepr) ++
            ('\n' :: (']' :: rest)))))) from rfl]
      simp only []
      obtain ⟨Y, hY⟩ := joinSep_cons_ex (',' :: ('\n' :: (' ' :: (' ' :: []))))
        (recordRepr r2) (rs2.map recordRepr)
      have hjc : joinSep (',' :: ('\n' :: (' ' :: (' ' :: [])))) ((r2 :: rs2).map recordRepr) ++
          ('\n' :: (']' :: rest)) = recordRepr r2 ++ (Y ++ ('\n' :: (']' :: rest))) := by
        rw [List.map_cons, hY, List.append_assoc]
      have hrecshape : ∃ Z, recordRepr r2 ++ (Y ++ ('\n' :: (']' :: rest))) = '{' :: Z := by
        cases r2 with
        | nil => exact ⟨'}' :: (Y ++ ('\n' :: (']' :: rest))), rfl⟩
        | cons kv2 more2 => exact ⟨_, rfl⟩
      obtain ⟨Z, hZ⟩ := hrecshape
      have hskip : skipWs ('\n' :: (' ' :: (' ' ::
          (joinSep (',' :: ('\n' :: (' ' :: (' ' :: [])))) ((r2 :: rs2).map recordRepr) ++
            ('\n' :: (']' :: rest)))))) =
          joinSep (',' :: ('\n' :: (' ' :: (' ' :: [])))) ((r2 :: rs2).map recordRepr) ++
            ('\n' :: (']' :: rest)) := by
        rw [skipWs_cons_of_ws '\n' _ rfl, skipWs_cons_of_ws ' ' _ rfl,
          skipWs_cons_of_ws ' ' _ rfl, hjc, hZ]
        exact skipWs_cons_of_not _ _ rfl
      rw [hskip]
      have hih := ih f rest (by simp) (by
        simp only [List.length_cons, List.map_cons, List.sum_cons] at hfuel ⊢
        omega) (fun rr hm => hfl rr (by simp [hm]))
      rw [hih]
      rfl

theorem joinSep_len_ge (sep : List Char) :
    ∀ ps : List (List Char), (ps.map List.length).sum ≤ (joinSep sep ps).length := by
  intro ps
  induction ps with
  | nil => simp [joinSep]
  | cons x xs ih =>
    cases xs with
    | nil => simp [joinSep]
    | cons y ys =>
      rw [show joinSep sep (x :: y :: ys) = x ++ sep ++ joinSep sep (y :: ys) from rfl]
      simp only [List.map_cons, List.sum_cons, List.length_append] at ih ⊢
      omega

theorem memberRepr_len (kv : String × JValue) : 1 ≤ (memberRepr kv).length := by
  unfold memberRepr
  rw [List.length_append]
  have h4 : ("    ".data : List Char).length = 4 := rfl
  omega

theorem members_len : ∀ (r : List (String × JValue)),
    r.length ≤ ((r.map memberRepr).map List.length).sum := by
  intro r
  induction r with
  | nil => simp
  | cons kv more ih =>
    simp only [List.map_cons, List.sum_cons, List.length_cons]
    have := memberRepr_len kv
    omega

theorem recordRepr_len (r : List (String × JValue)) : r.length + 1 ≤ (recordRepr r).length := by
  cases r with
  | nil => simp [recordRepr]
  | cons kv more =>
    rw [show recordRepr (kv :: more) =
      '{' :: ('\n' :: (joinSep (',' :: ('\n' :: [])) ((kv :: more).map memberRepr) ++
        ('\n' :: (' ' :: (' ' :: ('}' :: [])))))) from rfl]
    have h1 := joinSep_len_ge (',' :: ('\n' :: [])) ((kv :: more).map memberRepr)
    have h2 := members_len (kv :: more)
    simp only [List.length_cons, List.length_append, List.length_nil] at h1 h2 ⊢
    omega

theorem doc_pieces_len : ∀ (data : List (List (String × JValue))),
    data.length + (data.map List.length).sum ≤
      ((data.map (fun r => "  ".data ++ recordRepr r)).map List.length).sum := by
  intro data
  induction data with
  | nil => simp
  | cons r rs ih =>
    simp only [List.map_cons, List.sum_cons, List.length_cons] at ih ⊢
    have h1 := recordRepr_len r
    have h3 : (([' ', ' '] : List Char) ++ recordRepr r).length = 2 + (recordRepr r).length := by
      rw [List.length_append]
      rfl
    omega

theorem save_text_len (data : List (List (String × JValue))) :
    data.length + (data.map List.length).sum ≤ (save_json_text data).length := by
  cases data with
  | nil => simp
  | cons r rs =>
    rw [show save_json_text (r :: rs) =
      '[' :: ('\n' :: (joinSep (',' :: ('\n' :: []))
        ((r :: rs).map (fun x => "  ".data ++ recordRepr x)) ++ ('\n' :: (']' :: [])))) from rfl]
    have h1 := joinSep_len_ge (',' :: ('\n' :: []))
      ((r :: rs).map (fun x => "  ".data ++ recordRepr x))
    have h2 := doc_pieces_len (r :: rs)
    simp only [List.length_cons, List.length_append] at h1 h2 ⊢
    omega

end RoundTrip

/-- Claim C8: writing a converted record set with the Writer
(`json.dump(data, indent=2, ensure_ascii=False)`, modelled by
`save_json_text`) and re-parsing the resulting JSON document yields a
field-for-field equal record set — integers are stored and recovered as
integers.  The hypothesis requires each finite float's denominator to
divide a power of ten, which holds of every float the converter produces
(decimal-literal parsing); it excludes only rationals a Python float cannot
be. -/
theorem claim_c8_write_read_roundtrip (data : List (List (String × JValue)))
    (h : ∀ r ∈ data, ∀ kv ∈ r, ∀ q : Rat, kv.2 = JValue.float (PyFloat.finite q) →
      10 ^ q.den % q.den = 0) :
    json_loads (save_json_text data) = some data := by
  cases data with
  | nil => rfl
  | cons r rs =>
    have h0 : json_loads (save_json_text (r :: rs)) =
        (match skipWs ('\n' :: (joinSep (',' :: ('\n' :: []))
            ((r :: rs).map (fun x => "  ".data ++ recordRepr x)) ++ ('\n' :: (']' :: [])))) with
         | ']' :: r1 => if (skipWs r1).isEmpty then some [] else none
         | r1 =>
           match parseElements ((save_json_text (r :: rs)).length + 1) r1 with
           | none => none
           | some (rs2, r2) => if (skipWs r2).isEmpty then some rs2 else none) := rfl
    rw [h0]
    rw [show List.map (fun x => "  ".data ++ recordRepr x) (r :: rs) =
      ((r :: rs).map recordRepr).map (fun p => "  ".data ++ p) from by rw [List.map_map]; rfl]
    rw [joinSep_factor "  ".data (',' :: ('\n' :: [])) ((r :: rs).map recordRepr) (by simp)]
    rw [show ((',' :: ('\n' :: ([] : List Char))) ++ "  ".data) =
      ',' :: ('\n' :: (' ' :: (' ' :: []))) from rfl]
    rw [List.append_assoc]
    rw [show (("  ".data : List Char) ++
        (joinSep (',' :: ('\n' :: (' ' :: (' ' :: [])))) ((r :: rs).map recordRepr) ++
          ('\n' :: (']' :: [])))) =
      ' ' :: (' ' :: (joinSep (',' :: ('\n' :: (' ' :: (' ' :: []))))
        ((r :: rs).map recordRepr) ++ ('\n' :: (']' :: [])))) from rfl]
    obtain ⟨Y, hY⟩ := joinSep_cons_ex (',' :: ('\n' :: (' ' :: (' ' :: []))))
      (recordRepr r) (rs.map recordRepr)
    have hjc : joinSep (',' :: ('\n' :: (' ' :: (' ' :: [])))) ((r :: rs).map recordRepr) ++
        ('\n' :: (']' :: [])) = recordRepr r ++ (Y ++ ('\n' :: (']' :: []))) := by
      rw [List.map_cons, hY, List.append_assoc]
    have hrecshape : ∃ Z, recordRepr r ++ (Y ++ ('\n' :: (']' :: []))) = '{' :: Z := by
      cases r with
      | nil => exact ⟨'}' :: (Y ++ ('\n' :: (']' :: []))), rfl⟩
      | cons kv2 more2 => exact ⟨_, rfl⟩
    obtain ⟨Z, hZ⟩ := hrecshape
    have hskip : skipWs ('\n' :: (' ' :: (' ' ::
        (joinSep (',' :: ('\n' :: (' ' :: (' ' :: [])))) ((r :: rs).map recordRepr) ++
          ('\n' :: (']' :: [])))))) =
        joinSep (',' :: ('\n' :: (' ' :: (' ' :: [])))) ((r :: rs).map recordRepr) ++
          ('\n' :: (']' :: [])) := by
      rw [skipWs_cons_of_ws '\n' _ rfl, skipWs_cons_of_ws ' ' _ rfl,
        skipWs_cons_of_ws ' ' _ rfl, hjc, hZ]
      exact skipWs_cons_of_not _ _ rfl
    rw [hskip, hjc, hZ]
    show (match parseElements ((save_json_text (r :: rs)).length + 1) ('{' :: Z) with
      | none => none
      | some (rs2, r2) => if (skipWs r2).isEmpty then some rs2 else none) = some (r :: rs)
    rw [← hZ, ← hjc]
    have hfuel : (r :: rs).length + ((r :: rs).map List.length).sum ≤
        (save_json_text (r :: rs)).length + 1 := by
      have := save_text_len (r :: rs)
      omega
    rw [parseElements_join (r :: rs) ((save_json_text (r :: rs)).length + 1) [] (by simp)
      hfuel h]
    rfl

/-- Witness for claim C8 at a concrete record set exercising every value
shape: strings (with characters needing escapes), integers, finite floats,
special floats, booleans and nulls. -/
theorem claim_c8_witness :
    json_loads (save_json_text
      [[("full_name", JValue.str "An \"n\"\n"), ("years", JValue.int 30),
        ("score", JValue.float (PyFloat.finite (mkRat 157 50))), ("is_active", JValue.bool true)],
       [("full_name", JValue.str "Bo"), ("years", JValue.null),
        ("score", JValue.float PyFloat.inf), ("is_active", JValue.bool false)]]) =
    some
      [[("full_name", JValue.str "An \"n\"\n"), ("years", JValue.int 30),
        ("score", JValue.float (PyFloat.finite (mkRat 157 50))), ("is_active", JValue.bool true)],
       [("full_name", JValue.str "Bo"), ("years", JValue.null),
        ("score", JValue.float PyFloat.inf), ("is_active", JValue.bool false)]] :=
  claim_c8_write_read_roundtrip _ (by
    intro r hr kv hkv q hq
    fin_cases hr <;> fin_cases hkv <;>
      first
        | exact JValue.noConfusion hq
        | (injection hq with h1; exact PyFloat.noConfusion h1)
        | (injection hq with h1; injection h1 with h2; subst h2; decide))
